import Mathlib

/-!
# LogSieve core engine: shallow embedding and verification

This file embeds the core log-parsing and query engine of the LogSieve
repository (`shared.js`, `logsieve-worker.js`) in Lean 4 and proves the
spec's testable properties against it.

Modelling conventions:

* JavaScript strings are modelled as `List Char`; the embedding is
  character-exact for the ASCII fragment exercised by the code
  (`\s` is modelled by the ASCII whitespace class, `\w` by `[A-Za-z0-9_]`,
  `\d` by `[0-9]`, as all the source regexes only rely on these).
* Host-platform services that the source explicitly delegates to
  (`Date` construction/printing, `parseFloat`, the `RegExp` engine for
  *user-supplied* patterns) are parameters of the embedding, bundled in
  environment structures.  The spec's non-goals section states the engine
  "delegates to the host platform's regular-expression matcher", so these
  oracles are external collaborators, not part of the verified core.
  All fixed regex literals appearing in the source are translated to
  concrete character-level matchers.
* Fallible paths are `Option`-valued; mutation is explicit state passing.
-/

namespace LogSieve

/-- The ASCII whitespace characters recognised by the JavaScript `\s`
class and `String.prototype.trim` (space, tab, LF, VT, FF, CR). -/
def jsWhitespace (c : Char) : Bool :=
  c = ' ' || c = '\t' || c = '\n' || c = '\x0b' || c = '\x0c' || c = '\r'

/-- JavaScript `\d`. -/
def jsDigit (c : Char) : Bool := '0' ≤ c && c ≤ '9'

/-- JavaScript `\w` (word character). -/
def jsWordChar (c : Char) : Bool :=
  ('a' ≤ c && c ≤ 'z') || ('A' ≤ c && c ≤ 'Z') || jsDigit c || c = '_'

/-- ASCII lower-casing, matching `String.prototype.toLowerCase` on the
ASCII fragment. -/
def jsToLower (cs : List Char) : List Char := cs.map Char.toLower

/-- ASCII upper-casing, matching `String.prototype.toUpperCase` on the
ASCII fragment. -/
def jsToUpper (cs : List Char) : List Char := cs.map Char.toUpper

/-- `String.prototype.trim`: strip whitespace from both ends. -/
def jsTrim (cs : List Char) : List Char :=
  ((cs.dropWhile jsWhitespace).reverse.dropWhile jsWhitespace).reverse

/-- A line is blank when its trim is empty (`!line.trim()` in the source). -/
def blankLine (cs : List Char) : Bool := jsTrim cs = []

/-- `needle.isPrefixOf hay` at some position: the substring test backing
`String.prototype.includes`. -/
def jsIncludes : List Char → List Char → Bool
  | hay, needle =>
    if needle.isPrefixOf hay then true
    else
      match hay with
      | [] => false
      | _ :: tl => jsIncludes tl needle

/-- The line emitted when `splitLinesAux` meets a `'\n'`: the regex
`\r?\n` also absorbs a `'\r'` sitting immediately before the `'\n'`
(i.e. at the head of the reversed accumulator). -/
def emitLine (acc : List Char) : List Char :=
  if acc.head? = some '\r' then acc.tail.reverse else acc.reverse

/-- `text.split(/\r?\n/)` from `parseLogText`, written as a single pass:
`'\n'` always terminates the current line (dropping a directly preceding
`'\r'`, exactly the `'\r'` the regex absorbs); every other character,
including a lone `'\r'`, stays in the line.  The accumulator holds the
current line reversed. -/
def splitLinesAux (acc : List Char) : List Char → List (List Char)
  | [] => [acc.reverse]
  | c :: rest =>
      if c = '\n' then emitLine acc :: splitLinesAux [] rest
      else splitLinesAux (c :: acc) rest

/-- `text.split(/\r?\n/)`. -/
def splitLines (cs : List Char) : List (List Char) := splitLinesAux [] cs

/-- Splitting off the text before the *last* newline of a buffer, used by
the chunk assembler (spec §4.2 step 3): the processed part is everything
strictly before the last line separator (`\n`, together with an
immediately preceding `\r`, matching how the repository splits lines),
and the remainder after that `\n` becomes the new pending buffer.
Returns `(cs, [])` when the buffer holds no newline (that case is guarded
away by the caller). -/
def splitAtLastNewline (cs : List Char) : List Char × List Char :=
  let t := ((cs.reverse).takeWhile (fun c => c ≠ '\n')).reverse
  match (cs.reverse).dropWhile (fun c => c ≠ '\n') with
  | '\n' :: before =>
      (if before.head? = some '\r' then before.tail.reverse else before.reverse, t)
  | _ => (cs, [])

theorem splitLinesAux_cons_ne (acc : List Char) (c : Char) (rest : List Char)
    (hc : c ≠ '\n') :
    splitLinesAux acc (c :: rest) = splitLinesAux (c :: acc) rest := by
  simp [splitLinesAux, hc]

theorem splitLinesAux_cons_nl (acc : List Char) (rest : List Char) :
    splitLinesAux acc ('\n' :: rest) = emitLine acc :: splitLinesAux [] rest := by
  simp [splitLinesAux]

theorem splitLinesAux_append (sep : List Char) (X : List Char) :
    ∀ (h acc : List Char),
      (sep = ['\r', '\n'] ∨
        (sep = ['\n'] ∧ (h.reverse ++ acc).head? ≠ some '\r')) →
      splitLinesAux acc (h ++ sep ++ X) =
        splitLinesAux acc h ++ splitLinesAux [] X := by
  intro h
  induction h with
  | nil =>
      intro acc hcond
      rcases hcond with hsep | ⟨hsep, hlast⟩
      · subst hsep
        have h1 : splitLinesAux acc (([] : List Char) ++ ['\r', '\n'] ++ X) =
            splitLinesAux ('\r' :: acc) ('\n' :: X) := by
          simpa using splitLinesAux_cons_ne acc '\r' ('\n' :: X) (by decide)
        rw [h1, splitLinesAux_cons_nl]
        simp [splitLinesAux, emitLine]
      · subst hsep
        simp only [List.reverse_nil, List.nil_append] at hlast
        have h1 : splitLinesAux acc (([] : List Char) ++ ['\n'] ++ X) =
            emitLine acc :: splitLinesAux [] X := by
          simpa using splitLinesAux_cons_nl acc X
        rw [h1]
        have h2 : emitLine acc = acc.reverse := by
          simp [emitLine, hlast]
        rw [h2]
        simp [splitLinesAux]
  | cons c h2 ih =>
      intro acc hcond
      by_cases hc : c = '\n'
      · subst hc
        have step : splitLinesAux acc (('\n' :: h2) ++ sep ++ X) =
            emitLine acc :: splitLinesAux [] (h2 ++ sep ++ X) := by
          simpa using splitLinesAux_cons_nl acc (h2 ++ sep ++ X)
        rw [step, ih [] ?_]
        · rw [splitLinesAux_cons_nl]
          simp
        · rcases hcond with hsep | ⟨hsep, hlast⟩
          · exact Or.inl hsep
          · refine Or.inr ⟨hsep, ?_⟩
            intro hcon
            apply hlast
            simp only [List.append_nil] at hcon
            rw [List.reverse_cons]
            cases hrev : h2.reverse with
            | nil => rw [hrev] at hcon; simp at hcon
            | cons d ds =>
                rw [hrev] at hcon
                simp only [List.head?_cons, Option.some.injEq] at hcon
                simp [hcon]
      · have step : splitLinesAux acc ((c :: h2) ++ sep ++ X) =
            splitLinesAux (c :: acc) (h2 ++ sep ++ X) := by
          simpa using splitLinesAux_cons_ne acc c (h2 ++ sep ++ X) hc
        rw [step, ih (c :: acc) ?_]
        · rw [splitLinesAux_cons_ne acc c h2 hc]
        · rcases hcond with hsep | ⟨hsep, hlast⟩
          · exact Or.inl hsep
          · refine Or.inr ⟨hsep, ?_⟩
            have : h2.reverse ++ (c :: acc) = (c :: h2).reverse ++ acc := by
              simp
            rw [this]
            exact hlast

theorem dropWhile_head_false {p : Char → Bool} :
    ∀ (l : List Char) (x : Char) (rs : List Char),
      l.dropWhile p = x :: rs → p x = false := by
  intro l
  induction l with
  | nil => intro x rs h; simp [List.dropWhile] at h
  | cons c tl ih =>
      intro x rs h
      rw [List.dropWhile_cons] at h
      by_cases hp : p c
      · rw [if_pos hp] at h
        exact ih x rs h
      · rw [if_neg hp] at h
        cases h
        exact eq_false_of_ne_true hp

theorem splitLines_decomp (cs : List Char) (hn : '\n' ∈ cs) :
    ∃ sep,
      (sep = ['\r', '\n'] ∨
        (sep = ['\n'] ∧
          ((splitAtLastNewline cs).1.reverse ++ ([] : List Char)).head? ≠ some '\r')) ∧
      cs = (splitAtLastNewline cs).1 ++ sep ++ (splitAtLastNewline cs).2 := by
  have hmem : '\n' ∈ cs.reverse := List.mem_reverse.mpr hn
  have hdw : (cs.reverse).dropWhile (fun c => c ≠ '\n') ≠ [] := by
    intro hnil
    rw [List.dropWhile_eq_nil_iff] at hnil
    have := hnil '\n' hmem
    simp at this
  have hsplit := List.takeWhile_append_dropWhile
    (p := fun c : Char => c ≠ '\n') (l := cs.reverse)
  cases hrest : (cs.reverse).dropWhile (fun c => c ≠ '\n') with
  | nil => exact absurd hrest hdw
  | cons x rs =>
      have hx : x = '\n' := by
        have := dropWhile_head_false (p := fun c => c ≠ '\n') cs.reverse x rs hrest
        simpa using this
      subst hx
      have hcs : cs = rs.reverse ++ ['\n'] ++
          ((cs.reverse).takeWhile (fun c => c ≠ '\n')).reverse := by
        have hr : cs.reverse =
            (cs.reverse).takeWhile (fun c => c ≠ '\n') ++ ('\n' :: rs) := by
          rw [← hrest]; exact hsplit.symm
        calc cs = cs.reverse.reverse := by simp
          _ = ((cs.reverse).takeWhile (fun c => c ≠ '\n') ++ ('\n' :: rs)).reverse := by
              rw [← hr]
          _ = rs.reverse ++ ['\n'] ++
              ((cs.reverse).takeWhile (fun c => c ≠ '\n')).reverse := by
              simp
      have h2eq : (splitAtLastNewline cs).2 =
          ((cs.reverse).takeWhile (fun c => c ≠ '\n')).reverse := by
        simp only [splitAtLastNewline, hrest]
      by_cases hy : rs.head? = some '\r'
      · refine ⟨['\r', '\n'], Or.inl rfl, ?_⟩
        have h1 : (splitAtLastNewline cs).1 = rs.tail.reverse := by
          simp only [splitAtLastNewline, hrest]
          rw [if_pos hy]
        rw [h1, h2eq]
        obtain ⟨rs2, hrs2⟩ : ∃ rs2, rs = '\r' :: rs2 := by
          cases rs with
          | nil => simp at hy
          | cons a as =>
              simp only [List.head?_cons, Option.some.injEq] at hy
              exact ⟨as, by rw [hy]⟩
        subst hrs2
        conv_lhs => rw [hcs]
        simp
      · refine ⟨['\n'], Or.inr ⟨rfl, ?_⟩, ?_⟩
        · have h1 : (splitAtLastNewline cs).1 = rs.reverse := by
            simp only [splitAtLastNewline, hrest]
            rw [if_neg hy]
          rw [h1]
          simpa using hy
        · have h1 : (splitAtLastNewline cs).1 = rs.reverse := by
            simp only [splitAtLastNewline, hrest]
            rw [if_neg hy]
          rw [h1, h2eq]
          conv_lhs => rw [hcs]

/-- Splitting a buffer that contains a newline at its last line separator
and splicing in any continuation text preserves the line decomposition. -/
theorem splitLines_append_of_decomp (cs X : List Char) (hn : '\n' ∈ cs) :
    splitLines (cs ++ X) =
      splitLines (splitAtLastNewline cs).1 ++
        splitLines ((splitAtLastNewline cs).2 ++ X) := by
  obtain ⟨sep, hsep, hcs⟩ := splitLines_decomp cs hn
  have hre : cs ++ X = (splitAtLastNewline cs).1 ++ sep ++
      ((splitAtLastNewline cs).2 ++ X) := by
    conv_lhs => rw [hcs]
    simp
  rw [hre]
  unfold splitLines
  exact splitLinesAux_append sep ((splitAtLastNewline cs).2 ++ X)
    (splitAtLastNewline cs).1 [] hsep

/-! ## Line Classifier (`shared.js` / `logsieve-worker.js`)

Character-level translations of the fixed regex literals used by
`guessLevel`, `tryTs`, `stripPrefix`, `isExceptionStart` and
`isContinuationLine`.  Greedy sub-patterns followed by a mandatory
character of a disjoint class (e.g. `\s*` before `\[?\d`, `\s+` before a
non-space literal) are compiled to maximal-run scans, which is exactly the
backtracking regex semantics in those cases; the `\d{1,2}` quantifiers are
compiled with explicit two-then-one backtracking. -/

/-- Exactly `n` decimal digits, returning them and the rest. -/
def matchDigits : Nat → List Char → Option (List Char × List Char)
  | 0, cs => some ([], cs)
  | n + 1, [] => none
  | n + 1, c :: tl =>
      if jsDigit c then
        match matchDigits n tl with
        | some (ds, rest) => some (c :: ds, rest)
        | none => none
      else none

/-- A single literal character. -/
def matchLit (c : Char) : List Char → Option (List Char)
  | [] => none
  | x :: tl => if x = c then some tl else none

/-- `\d+` (greedy, at least one digit). -/
def matchDigits1 (cs : List Char) : Option (List Char × List Char) :=
  let ds := cs.takeWhile jsDigit
  if ds = [] then none else some (ds, cs.dropWhile jsDigit)

/-- The shared ISO core `\d{4}-\d{2}-\d{2}[ T]\d{2}:\d{2}:\d{2}`,
returning the matched characters and the rest. -/
def matchISOBase (cs : List Char) : Option (List Char × List Char) := do
  let (y, r1) ← matchDigits 4 cs
  let r2 ← matchLit '-' r1
  let (mo, r3) ← matchDigits 2 r2
  let r4 ← matchLit '-' r3
  let (d, r5) ← matchDigits 2 r4
  match r5 with
  | sep :: r6 =>
      if sep = ' ' ∨ sep = 'T' then do
        let (h, r7) ← matchDigits 2 r6
        let r8 ← matchLit ':' r7
        let (mi, r9) ← matchDigits 2 r8
        let r10 ← matchLit ':' r9
        let (s, r11) ← matchDigits 2 r10
        some (y ++ '-' :: mo ++ '-' :: d ++ sep :: h ++ ':' :: mi ++ ':' :: s, r11)
      else none
  | [] => none

/-- The optional fraction `(?:[.,]\d+)?` following the ISO core. -/
def matchFracOpt (cs : List Char) : List Char × List Char :=
  match cs with
  | c :: tl =>
      if c = '.' ∨ c = ',' then
        match matchDigits1 tl with
        | some (ds, rest) => (c :: ds, rest)
        | none => ([], cs)
      else ([], cs)
  | [] => ([], cs)

/-- `\d{4}-\d{2}-\d{2}[ T]\d{2}:\d{2}:\d{2}(?:[.,]\d+)?`. -/
def matchISOCore (cs : List Char) : Option (List Char × List Char) :=
  match matchISOBase cs with
  | some (m, rest) =>
      let (f, rest2) := matchFracOpt rest
      some (m ++ f, rest2)
  | none => none

/-- Leftmost occurrence of the ISO pattern anywhere in the line
(the unanchored search of `tryTs`), returning the matched substring. -/
def findISOAux : List Char → Option (List Char)
  | [] => none
  | cs@(_ :: tl) =>
      match matchISOCore cs with
      | some (m, _) => some m
      | none => findISOAux tl

/-- Replace the first occurrence of `a` by `b`
(`String.prototype.replace` with a plain-string pattern). -/
def replaceFirst (a b : Char) : List Char → List Char
  | [] => []
  | c :: tl => if c = a then b :: tl else c :: replaceFirst a b tl

/-- Digits to a number (`Number(...)` on a digit string). -/
def digitsToNat (ds : List Char) : Nat :=
  ds.foldl (fun n c => n * 10 + (c.toNat - '0'.toNat)) 0

/-- `[A-Za-z]`. -/
def jsAlpha (c : Char) : Bool :=
  ('a' ≤ c && c ≤ 'z') || ('A' ≤ c && c ≤ 'Z')

/-- `\s+` (at least one whitespace character, maximal run). -/
def matchWs1 (cs : List Char) : Option (List Char) :=
  match cs with
  | c :: _ => if jsWhitespace c then some (cs.dropWhile jsWhitespace) else none
  | [] => none

/-- `\d{1,2}` directly followed by a required character class: try two
digits, then backtrack to one. `after` checks the continuation. -/
def matchD12 (after : List Char → Option (List Char)) (cs : List Char) :
    Option (Nat × List Char) :=
  match matchDigits 2 cs with
  | some (ds, rest) =>
      match after rest with
      | some rest2 => some (digitsToNat ds, rest2)
      | none =>
          match matchDigits 1 cs with
          | some (ds1, rest1) =>
              match after rest1 with
              | some rest2 => some (digitsToNat ds1, rest2)
              | none => none
          | none => none
  | none =>
      match matchDigits 1 cs with
      | some (ds1, rest1) =>
          match after rest1 with
          | some rest2 => some (digitsToNat ds1, rest2)
          | none => none
      | none => none

/-- The syslog base `[A-Za-z]{3}\s+\d{1,2}\s+\d{1,2}:\d{2}:\d{2}`:
month token, day, hour, minute, second and the rest. -/
def matchSyslogBase (cs : List Char) :
    Option (List Char × Nat × Nat × Nat × Nat × List Char) := do
  match cs with
  | a :: b :: c :: r1 =>
      if jsAlpha a ∧ jsAlpha b ∧ jsAlpha c then do
        let r2 ← matchWs1 r1
        let (day, r3) ← matchD12 matchWs1 r2
        let (hour, r4) ← matchD12 (matchLit ':') r3
        let (mi, r5) ← matchDigits 2 r4
        let r6 ← matchLit ':' r5
        let (s, r7) ← matchDigits 2 r6
        some ([a, b, c], day, hour, digitsToNat mi, digitsToNat s, r7)
      else none
  | _ => none

/-- Month-name table of `tryTs` / `parseTimestampToISO`. -/
def monthMap : List (List Char × Nat) :=
  [("Jan".toList, 0), ("Feb".toList, 1), ("Mar".toList, 2), ("Apr".toList, 3),
   ("May".toList, 4), ("Jun".toList, 5), ("Jul".toList, 6), ("Aug".toList, 7),
   ("Sep".toList, 8), ("Oct".toList, 9), ("Nov".toList, 10), ("Dec".toList, 11)]

/-- Host-platform services used by the parsing helpers: `Date` construction
from local-time components (year, 0-based month index, day, hour, minute,
second, optional fraction digit string) printed back with `toISOString`
(`none` models an invalid date), generic `new Date(string)` parsing, and
the current year/month used for syslog year inference. -/
structure ParserEnv where
  mkLocalDate : Int → Int → Nat → Nat → Nat → Nat → Option (List Char) → Option String
  dateFromString : List Char → Option String
  currentYear : Int
  currentMonth : Int

/-- `guessLevel` (`shared.js`): first case-insensitive severity hint found
in the line, with `WARN` canonicalised to `WARNING`. -/
def LEVEL_HINTS : List (List Char) :=
  ["DEBUG".toList, "INFO".toList, "WARN".toList, "WARNING".toList,
   "ERROR".toList, "CRITICAL".toList, "FATAL".toList]

def guessLevel (line : List Char) : String :=
  let up := jsToUpper line
  match LEVEL_HINTS.find? (fun lv => jsIncludes up lv) with
  | some lv => if lv = "WARN".toList then "WARNING" else String.mk lv
  | none => ""

/-- `tryTs` (`shared.js` / worker): extract a timestamp from a line,
first by the unanchored ISO pattern, then by the anchored syslog pattern
with current-year inference. -/
def tryTs (env : ParserEnv) (line : List Char) : String :=
  match findISOAux line with
  | some m =>
      let iso := replaceFirst ',' '.' (replaceFirst ' ' 'T' m)
      match matchISOBase iso with
      | some (_, rest) =>
          let y := digitsToNat (iso.take 4)
          let mo := digitsToNat ((iso.drop 5).take 2)
          let d := digitsToNat ((iso.drop 8).take 2)
          let h := digitsToNat ((iso.drop 11).take 2)
          let mi := digitsToNat ((iso.drop 14).take 2)
          let s := digitsToNat ((iso.drop 17).take 2)
          let frac := (matchFracOpt rest).1
          let fracDigits := if frac = [] then none else some frac.tail
          ((env.mkLocalDate (y : Int) ((mo : Int) - 1) d h mi s fracDigits).getD "")
      | none => (env.dateFromString iso).getD ""
  | none =>
      match matchSyslogBase line with
      | some (mon, day, hour, mi, s, rest) =>
          match monthMap.lookup mon with
          | some month =>
              let year : Int :=
                if (month : Int) > env.currentMonth then env.currentYear - 1
                else env.currentYear
              let frac :=
                match rest with
                | '.' :: tl =>
                    match matchDigits1 tl with
                    | some (ds, _) => some ds
                    | none => none
                | _ => none
              ((env.mkLocalDate year (month : Int) day hour mi s frac).getD "")
          | none => ""
      | none => ""

/-- `stripPrefix` (`shared.js` / worker): remove a leading, optionally
bracket-wrapped timestamp (ISO first, then syslog) with surrounding
whitespace; unchanged when neither matches at the start. -/
def stripPrefix (line : List Char) : List Char :=
  let isoAttempt : Option (List Char) :=
    let r1 := line.dropWhile jsWhitespace
    let r2 := if r1.head? = some '[' then r1.tail else r1
    match matchISOCore r2 with
    | some (_, rest) =>
        let rest2 := if rest.head? = some ']' then rest.tail else rest
        some (rest2.dropWhile jsWhitespace)
    | none => none
  match isoAttempt with
  | some rest => rest
  | none =>
      let r1 := line.dropWhile jsWhitespace
      let r2 := if r1.head? = some '[' then r1.tail else r1
      match matchSyslogBase r2 with
      | some (_, _, _, _, _, rest) =>
          let (_, rest1) := matchFracOpt rest
          let rest2 := if rest1.head? = some ']' then rest1.tail else rest1
          (rest2.dropWhile jsWhitespace)
      | none => line

/-- Case-insensitive anchored prefix test (`/^lit/i.test`). -/
def startsWithCI (lit cs : List Char) : Bool :=
  (jsToLower lit).isPrefixOf (jsToLower cs)

/-- `\S+suffix` anchored at the current position: at least one
non-whitespace character, then the literal `suffix`; every character
before the suffix must be non-whitespace. -/
def midTokenSearch (suffix : List Char) : List Char → Bool
  | [] => false
  | c :: tl =>
      if jsWhitespace c then false
      else suffix.isPrefixOf tl || midTokenSearch suffix tl

/-- `isExceptionStart` (`shared.js` / worker). -/
def isExceptionStart (line : List Char) : Bool :=
  let trimmed := jsTrim line
  if startsWithCI "Exception in thread".toList trimmed then true
  else if ¬ (line.head? = some ' ' ∨ line.head? = some '\t') then
    midTokenSearch "Error:".toList trimmed ||
      midTokenSearch "Exception:".toList trimmed
  else false

/-- `/^\s*\[?\d{4}-\d{2}-\d{2}[ T]\d{2}:\d{2}:\d{2}/.test(line)`. -/
def tsStartISOTest (line : List Char) : Bool :=
  let r1 := line.dropWhile jsWhitespace
  let r2 := if r1.head? = some '[' then r1.tail else r1
  (matchISOBase r2).isSome

/-- `/^\s*\[?[A-Za-z]{3}\s+\d{1,2}\s+\d{1,2}:\d{2}:\d{2}/.test(line)`. -/
def tsStartSyslogTest (line : List Char) : Bool :=
  let r1 := line.dropWhile jsWhitespace
  let r2 := if r1.head? = some '[' then r1.tail else r1
  (matchSyslogBase r2).isSome

/-- Search for a case-insensitive `line ` followed by a digit, at any
position (the `.*line \d+` tail of the Python-frame pattern). -/
def searchLineNum : List Char → Bool
  | [] => false
  | cs@(_ :: tl) =>
      (startsWithCI "line ".toList cs &&
        ((cs.drop 5).head?.elim false jsDigit)) || searchLineNum tl

/-- `/^\s+File .*line \d+/i.test(line)`. -/
def fileLineTest (line : List Char) : Bool :=
  match line with
  | [] => false
  | c :: _ =>
      jsWhitespace c &&
        (let rest := line.dropWhile jsWhitespace
         startsWithCI "File ".toList rest && searchLineNum (rest.drop 5))

/-- `/^\s+\S+suffix/` for the indented `Error:` / `Exception:` patterns. -/
def indentMidToken (suffix : List Char) (line : List Char) : Bool :=
  match line with
  | [] => false
  | c :: _ =>
      jsWhitespace c && midTokenSearch suffix (line.dropWhile jsWhitespace)

/-- `/^\s+at /.test(line)`. -/
def atFrameTest (line : List Char) : Bool :=
  match line with
  | [] => false
  | c :: _ =>
      jsWhitespace c && "at ".toList.isPrefixOf (line.dropWhile jsWhitespace)

/-- `/^[\t ]{2,}/.test(line)`. -/
def twoIndentTest (line : List Char) : Bool :=
  match line with
  | c1 :: c2 :: _ => (c1 = '\t' || c1 = ' ') && (c2 = '\t' || c2 = ' ')
  | _ => false

/-- `isContinuationLine` (`shared.js` / worker), with the checks in the
source's order. -/
def isContinuationLine (line : List Char) : Bool :=
  if blankLine line then false
  else if tsStartISOTest line || tsStartSyslogTest line then false
  else if isExceptionStart line then false
  else if startsWithCI "Traceback (most recent call last)".toList (jsTrim line) then true
  else if fileLineTest line then true
  else if indentMidToken "Error:".toList line ||
      indentMidToken "Exception:".toList line then true
  else if atFrameTest line then true
  else if twoIndentTest line then true
  else if (line.head?.elim false jsWhitespace) && (jsTrim line).length > 0 then true
  else false

/-! ## Chunked Entry Assembler (`parseLogText`, worker chunk feeding) -/

/-- One logical log entry, as built by `parseLogText`.  `message` is
`Option`-valued because the extractor can assign an `undefined` capture to
it; the parser always produces `some`.  `fields` maps an extracted field
name to the array of its captured values (array elements can be
`undefined` for non-participating groups, hence `Option String`).
`lc` is the `_lc` lowercase search index. -/
structure Entry where
  id : Nat
  ts : String
  level : String
  message : Option (List Char)
  raw : List Char
  fields : List (String × List (Option String))
  lc : List Char
deriving Repr, DecidableEq

/-- JavaScript string coercion of a possibly-`undefined` string. -/
def jsStrOfOpt (m : Option (List Char)) : List Char :=
  m.getD "undefined".toList

/-- A fresh entry opened from a header line (`parseLogText`): id from the
counter, timestamp and level from the Line Classifier,
`message = stripPrefix(line) || line`, `raw` the line itself,
`_lc = (line + " " + msg).toLowerCase()`. -/
def newEntry (env : ParserEnv) (nid : Nat) (line : List Char) : Entry :=
  let msg := if stripPrefix line = [] then line else stripPrefix line
  { id := nid
    ts := tryTs env line
    level := guessLevel line
    message := some msg
    raw := line
    fields := []
    lc := jsToLower (line ++ ' ' :: msg) }

/-- The parser's running state: emitted entries, the currently open entry,
and the next id. -/
abbrev ParseAcc := List Entry × Option Entry × Nat

/-- The body of `parseLogText`'s line loop: skip blank lines; merge a
continuation line into the open entry (appending to `raw` and `message`
and refreshing `_lc`); otherwise flush the open entry and open a new
one. -/
def processLine (env : ParserEnv) (st : ParseAcc) (line : List Char) : ParseAcc :=
  if blankLine line then st
  else
    match st.2.1 with
    | some e =>
        if isContinuationLine line then
          let raw2 := e.raw ++ '\n' :: line
          let msg2 := some (jsStrOfOpt e.message ++ '\n' :: line)
          (st.1,
           some { e with
                    raw := raw2
                    message := msg2
                    lc := jsToLower (raw2 ++ ' ' :: jsStrOfOpt msg2) },
           st.2.2)
        else
          (st.1 ++ [e], some (newEntry env st.2.2 line), st.2.2 + 1)
    | none => (st.1, some (newEntry env st.2.2 line), st.2.2 + 1)

/-- `parseLogText` (worker): split the text into lines, run the line loop,
and flush the last open entry. -/
def parseLogText (env : ParserEnv) (text : List Char) : List Entry :=
  let res := (splitLines text).foldl (processLine env) ([], none, 1)
  res.1 ++ res.2.1.toList

/-- State of the Chunked Entry Assembler: the pending partial-line buffer,
the open entry carried across chunks, the id counter, and the emitted
rows. -/
structure ChunkState where
  pending : List Char
  openEntry : Option Entry
  nextId : Nat
  rows : List Entry
deriving Repr, DecidableEq

/-- Modelled from the spec: the worker's `parseLogChunk` (exercised by
`src/tests/test_chunking.js` through `resetParserState`/`parseLogChunk`)
is not among the provided sources; this definition follows spec §4.2
step by step.  The chunk is appended to the pending buffer; a non-final
buffer without a newline is held back whole; otherwise the text up to
(not including) the last line separator is processed — the separator is
`\n` together with an immediately preceding `\r`, matching the
repository's `\r?\n` line splitting — with the remainder kept as the new
pending buffer; the processed text runs through the same per-line
continuation/new-entry loop as `parseLogText`, and a final chunk flushes
the open entry. -/
def parseLogChunk (env : ParserEnv) (st : ChunkState) (chunk : List Char)
    (isFinalChunk : Bool) : ChunkState :=
  let buf := st.pending ++ chunk
  if ¬ isFinalChunk ∧ '\n' ∉ buf then { st with pending := buf }
  else
    let textToProcess := if isFinalChunk then buf else (splitAtLastNewline buf).1
    let res := (splitLines textToProcess).foldl (processLine env)
      (st.rows, st.openEntry, st.nextId)
    if isFinalChunk then
      { pending := [], openEntry := none, nextId := res.2.2,
        rows := res.1 ++ res.2.1.toList }
    else
      { pending := (splitAtLastNewline buf).2, openEntry := res.2.1,
        nextId := res.2.2, rows := res.1 }

/-- Modelled from the spec: `resetParserState` clears the buffer and open
entry and resets the id counter to 1 (spec §4.2). -/
def resetParserState : ChunkState :=
  { pending := [], openEntry := none, nextId := 1, rows := [] }

/-- Feed a sequence of `(chunk, isFinalChunk)` pairs from a fresh state. -/
def runChunks (env : ParserEnv) (chunks : List (List Char × Bool)) : ChunkState :=
  chunks.foldl (fun st cf => parseLogChunk env st cf.1 cf.2) resetParserState

theorem parseLogChunk_hold (env : ParserEnv) (st : ChunkState) (chunk : List Char)
    (h : '\n' ∉ st.pending ++ chunk) :
    parseLogChunk env st chunk false = { st with pending := st.pending ++ chunk } := by
  unfold parseLogChunk
  rw [if_pos]
  exact ⟨by simp, h⟩

theorem parseLogChunk_final (env : ParserEnv) (st : ChunkState) (chunk : List Char) :
    parseLogChunk env st chunk true =
      { pending := [], openEntry := none,
        nextId := ((splitLines (st.pending ++ chunk)).foldl (processLine env)
          (st.rows, st.openEntry, st.nextId)).2.2,
        rows := ((splitLines (st.pending ++ chunk)).foldl (processLine env)
          (st.rows, st.openEntry, st.nextId)).1 ++
          ((splitLines (st.pending ++ chunk)).foldl (processLine env)
            (st.rows, st.openEntry, st.nextId)).2.1.toList } := by
  unfold parseLogChunk
  rw [if_neg (by simp)]
  simp

theorem parseLogChunk_mid (env : ParserEnv) (st : ChunkState) (chunk : List Char)
    (h : '\n' ∈ st.pending ++ chunk) :
    parseLogChunk env st chunk false =
      { pending := (splitAtLastNewline (st.pending ++ chunk)).2,
        openEntry := ((splitLines (splitAtLastNewline (st.pending ++ chunk)).1).foldl
          (processLine env) (st.rows, st.openEntry, st.nextId)).2.1,
        nextId := ((splitLines (splitAtLastNewline (st.pending ++ chunk)).1).foldl
          (processLine env) (st.rows, st.openEntry, st.nextId)).2.2,
        rows := ((splitLines (splitAtLastNewline (st.pending ++ chunk)).1).foldl
          (processLine env) (st.rows, st.openEntry, st.nextId)).1 } := by
  unfold parseLogChunk
  rw [if_neg (by simp [h])]
  simp

/-- **C1** Chunk-boundary equivalence of the Chunked Entry Assembler: for
every log text and every split offset, feeding the text as one single
final chunk produces the same entry list (in fact the same full assembler
state, ids included, since both runs start from a reset state) as feeding
it split at that offset across two chunks with the final-chunk flag only
on the second; and feeding `"2023-01-01 10:00:00 INFO Start of"` then
`" line\n"` (final) yields exactly one entry whose message is
`"INFO Start of line"`. -/
theorem chunk_boundary_equivalence :
    (∀ (env : ParserEnv) (text : List Char) (k : Nat),
      runChunks env [(text.take k, false), (text.drop k, true)] =
        runChunks env [(text, true)]) ∧
    (∀ env : ParserEnv,
      ((runChunks env [("2023-01-01 10:00:00 INFO Start of".toList, false),
          (" line\n".toList, true)]).rows).map Entry.message =
        [some ("INFO Start of line".toList)]) := by
  constructor
  · intro env text k
    have hsplit : text.take k ++ text.drop k = text := List.take_append_drop k text
    show parseLogChunk env (parseLogChunk env resetParserState (text.take k) false)
        (text.drop k) true = parseLogChunk env resetParserState text true
    by_cases hmem : '\n' ∈ resetParserState.pending ++ text.take k
    · rw [parseLogChunk_mid env resetParserState (text.take k) hmem]
      simp only [resetParserState, List.nil_append] at hmem ⊢
      rw [parseLogChunk_final, parseLogChunk_final]
      simp only [List.nil_append]
      have hlines : splitLines (text.take k ++ text.drop k) =
          splitLines (splitAtLastNewline (text.take k)).1 ++
            splitLines ((splitAtLastNewline (text.take k)).2 ++ text.drop k) := by
        exact splitLines_append_of_decomp (text.take k) (text.drop k) hmem
      rw [hsplit] at hlines
      rw [hlines, List.foldl_append]
    · rw [parseLogChunk_hold env resetParserState (text.take k) hmem]
      rw [parseLogChunk_final, parseLogChunk_final]
      simp only [resetParserState, List.nil_append]
      rw [hsplit]
  · intro env
    rfl

/-! ## Continuation-merging invariant (spec §8) -/

/-- Newline-join of a list of lines (`raw` is built by appending
`"\n" + line` for each merged continuation line). -/
def joinLinesNL : List (List Char) → List Char
  | [] => []
  | [l] => l
  | l :: ls => l ++ '\n' :: joinLinesNL ls

/-- Spec-side definition, following the spec's words: group a stream of
(non-blank) lines into entries — a group is a header line plus every
subsequent line classified as a continuation by `isContinuationLine`,
up to the next non-continuation line or end of input.  The accumulator
holds the current group reversed. -/
def specGroupsGo (cur : List (List Char)) : List (List Char) → List (List (List Char))
  | [] => [cur.reverse]
  | l :: ls =>
      if isContinuationLine l then specGroupsGo (l :: cur) ls
      else cur.reverse :: specGroupsGo [l] ls

/-- Spec-side definition: the grouping of the non-blank lines of the
input into entries. -/
def specGroups : List (List Char) → List (List (List Char))
  | [] => []
  | l :: ls => specGroupsGo [l] ls

/-- The finished entry list of a parser state: emitted entries plus the
open one. -/
def finishAcc (st : ParseAcc) : List Entry := st.1 ++ st.2.1.toList

theorem processLine_blank (env : ParserEnv) (st : ParseAcc) (l : List Char)
    (h : blankLine l = true) : processLine env st l = st := by
  unfold processLine
  rw [if_pos h]

theorem foldl_processLine_filter (env : ParserEnv) :
    ∀ (lines : List (List Char)) (st : ParseAcc),
      lines.foldl (processLine env) st =
        (lines.filter (fun l => !(blankLine l))).foldl (processLine env) st := by
  intro lines
  induction lines with
  | nil => intro st; rfl
  | cons l ls ih =>
      intro st
      by_cases hb : blankLine l = true
      · rw [List.foldl_cons, processLine_blank env st l hb,
          List.filter_cons_of_neg (by simp [hb]), ih]
      · rw [List.foldl_cons, List.filter_cons_of_pos (by simp [hb]),
          List.foldl_cons, ih]

/-- The raw texts produced from a run with an open entry, as a direct
recursion over the remaining (non-blank) lines. -/
def rawGo (r : List Char) : List (List Char) → List (List Char)
  | [] => [r]
  | l :: ls =>
      if isContinuationLine l then rawGo (r ++ '\n' :: l) ls
      else r :: rawGo l ls

theorem finish_foldl_raws (env : ParserEnv) :
    ∀ (ls : List (List Char)), (∀ l ∈ ls, blankLine l = false) →
      ∀ (out : List Entry) (e : Entry) (n : Nat),
        (finishAcc (ls.foldl (processLine env) (out, some e, n))).map Entry.raw =
          out.map Entry.raw ++ rawGo e.raw ls := by
  intro ls
  induction ls with
  | nil =>
      intro _ out e n
      simp [finishAcc, rawGo]
  | cons l ls2 ih =>
      intro hnb out e n
      have hl : blankLine l = false := hnb l (List.mem_cons_self l ls2)
      have hls2 : ∀ x ∈ ls2, blankLine x = false :=
        fun x hx => hnb x (List.mem_cons_of_mem l hx)
      rw [List.foldl_cons]
      by_cases hc : isContinuationLine l = true
      · have hstep : processLine env (out, some e, n) l =
            (out, some { e with
              raw := e.raw ++ '\n' :: l
              message := some (jsStrOfOpt e.message ++ '\n' :: l)
              lc := jsToLower ((e.raw ++ '\n' :: l) ++ ' ' ::
                jsStrOfOpt (some (jsStrOfOpt e.message ++ '\n' :: l))) }, n) := by
          unfold processLine
          rw [if_neg (by simp [hl])]
          simp [hc]
        rw [hstep, ih hls2]
        have h2 : rawGo e.raw (l :: ls2) = rawGo (e.raw ++ '\n' :: l) ls2 := by
          simp only [rawGo]
          rw [if_pos hc]
        rw [h2]
      · have hstep : processLine env (out, some e, n) l =
            (out ++ [e], some (newEntry env n l), n + 1) := by
          unfold processLine
          rw [if_neg (by simp [hl])]
          simp [hc]
        rw [hstep, ih hls2]
        have h2 : rawGo e.raw (l :: ls2) = e.raw :: rawGo l ls2 := by
          simp only [rawGo]
          rw [if_neg hc]
        rw [h2]
        simp [newEntry]

theorem joinLinesNL_append_singleton (xs : List (List Char)) (l : List Char)
    (hxs : xs ≠ []) :
    joinLinesNL (xs ++ [l]) = joinLinesNL xs ++ '\n' :: l := by
  induction xs with
  | nil => exact absurd rfl hxs
  | cons x xs2 ih =>
      cases xs2 with
      | nil => simp [joinLinesNL]
      | cons y ys =>
          have := ih (by simp)
          rw [List.cons_append]
          rw [show joinLinesNL (x :: (y :: ys ++ [l])) =
              x ++ '\n' :: joinLinesNL (y :: ys ++ [l]) from ?_]
          · rw [this]
            rw [show joinLinesNL (x :: y :: ys) =
                x ++ '\n' :: joinLinesNL (y :: ys) from rfl]
            simp
          · cases ys with
            | nil => rfl
            | cons z zs => rfl

theorem rawGo_specGroupsGo :
    ∀ (ls : List (List Char)) (cur : List (List Char)), cur ≠ [] →
      rawGo (joinLinesNL cur.reverse) ls = (specGroupsGo cur ls).map joinLinesNL := by
  intro ls
  induction ls with
  | nil =>
      intro cur _
      simp [rawGo, specGroupsGo]
  | cons l ls2 ih =>
      intro cur hcur
      unfold rawGo specGroupsGo
      by_cases hc : isContinuationLine l = true
      · rw [if_pos hc, if_pos hc]
        have hkey : joinLinesNL cur.reverse ++ '\n' :: l =
            joinLinesNL (l :: cur).reverse := by
          rw [List.reverse_cons,
            joinLinesNL_append_singleton cur.reverse l (by simpa using hcur)]
        rw [hkey, ih (l :: cur) (by simp)]
      · rw [if_neg hc, if_neg hc]
        have := ih [l] (by simp)
        simp only [List.reverse_singleton] at this
        rw [show joinLinesNL [l] = l from rfl] at this
        rw [this]
        simp

theorem specGroupsGo_join :
    ∀ (ls : List (List Char)) (cur : List (List Char)),
      (specGroupsGo cur ls).flatten = cur.reverse ++ ls := by
  intro ls
  induction ls with
  | nil => intro cur; simp [specGroupsGo]
  | cons l ls2 ih =>
      intro cur
      unfold specGroupsGo
      by_cases hc : isContinuationLine l = true
      · rw [if_pos hc]
        rw [ih (l :: cur)]
        simp
      · rw [if_neg hc]
        simp only [List.flatten_cons]
        rw [ih [l]]
        simp

theorem parseLogText_raw_groups (env : ParserEnv) (text : List Char) :
    (parseLogText env text).map Entry.raw =
      (specGroups ((splitLines text).filter (fun l => !(blankLine l)))).map
        joinLinesNL ∧
    (specGroups ((splitLines text).filter (fun l => !(blankLine l)))).flatten =
      (splitLines text).filter (fun l => !(blankLine l)) := by
  constructor
  · have hpt : parseLogText env text = finishAcc
        (((splitLines text).filter (fun l => !(blankLine l))).foldl
          (processLine env) ([], none, 1)) := by
      unfold parseLogText finishAcc
      rw [foldl_processLine_filter]
    rw [hpt]
    cases hnb : (splitLines text).filter (fun l => !(blankLine l)) with
    | nil => simp [finishAcc, specGroups]
    | cons l ls =>
        have hlnb : blankLine l = false := by
          have : l ∈ (splitLines text).filter (fun l => !(blankLine l)) := by
            rw [hnb]; exact List.mem_cons_self l ls
          have := List.of_mem_filter this
          simpa using this
        have hlsnb : ∀ x ∈ ls, blankLine x = false := by
          intro x hx
          have : x ∈ (splitLines text).filter (fun l => !(blankLine l)) := by
            rw [hnb]; exact List.mem_cons_of_mem l hx
          have := List.of_mem_filter this
          simpa using this
        rw [List.foldl_cons]
        have hstep : processLine env ([], none, 1) l =
            ([], some (newEntry env 1 l), 2) := by
          unfold processLine
          rw [if_neg (by simp [hlnb])]
        rw [hstep, finish_foldl_raws env ls hlsnb [] (newEntry env 1 l) 2]
        have hraw : (newEntry env 1 l).raw = l := rfl
        rw [hraw]
        unfold specGroups
        have := rawGo_specGroupsGo ls [l] (by simp)
        simp only [List.reverse_singleton] at this
        rw [show joinLinesNL [l] = l from rfl] at this
        rw [this]
        simp
  · cases hnb : (splitLines text).filter (fun l => !(blankLine l)) with
    | nil => simp [specGroups]
    | cons l ls =>
        unfold specGroups
        rw [specGroupsGo_join ls [l]]
        simp

/-- **C2** Continuation merging invariant: for every input text, the raw
texts of the entries produced by `parseLogText` are exactly the
newline-joins of the groups of non-blank lines — each group being a header
line plus every subsequent line for which `isContinuationLine` is true
before the next non-continuation line or end of input — and the groups
partition the non-blank lines of the input, so every non-blank line ends
up inside some entry (the parser is total: nothing is rejected). -/
theorem continuation_merging_invariant (env : ParserEnv) (text : List Char) :
    (parseLogText env text).map Entry.raw =
      (specGroups ((splitLines text).filter (fun l => !(blankLine l)))).map
        joinLinesNL ∧
    (specGroups ((splitLines text).filter (fun l => !(blankLine l)))).flatten =
      (splitLines text).filter (fun l => !(blankLine l)) :=
  parseLogText_raw_groups env text

/-! ## Monotone ids (`id = nextId++` in `parseLogText`) -/

theorem processLine_ids (env : ParserEnv) (st : ParseAcc) (l : List Char)
    (h1 : (finishAcc st).map Entry.id = List.range' 1 (finishAcc st).length)
    (h2 : st.2.2 = (finishAcc st).length + 1) :
    (finishAcc (processLine env st l)).map Entry.id =
      List.range' 1 (finishAcc (processLine env st l)).length ∧
    (processLine env st l).2.2 = (finishAcc (processLine env st l)).length + 1 := by
  by_cases hb : blankLine l = true
  · rw [processLine_blank env st l hb]
    exact ⟨h1, h2⟩
  · obtain ⟨out, cur, n⟩ := st
    cases cur with
    | none =>
        have hstep : processLine env (out, none, n) l =
            (out, some (newEntry env n l), n + 1) := by
          unfold processLine
          rw [if_neg (by simp [hb])]
        rw [hstep]
        simp only [finishAcc, Option.toList_none, Option.toList_some,
          List.append_nil] at h1 h2 ⊢
        constructor
        · have hlen1 : (out ++ [newEntry env n l]).length = out.length + 1 := by
            simp
          rw [List.map_append, h1, hlen1, List.range'_1_concat]
          have hid : List.map Entry.id [newEntry env n l] = [n] := rfl
          rw [hid, h2]
          simp [Nat.add_comm]
        · have hlen1 : (out ++ [newEntry env n l]).length = out.length + 1 := by
            simp
          rw [hlen1]
          omega
    | some e =>
        by_cases hc : isContinuationLine l = true
        · have hstep : processLine env (out, some e, n) l =
              (out, some { e with
                raw := e.raw ++ '\n' :: l
                message := some (jsStrOfOpt e.message ++ '\n' :: l)
                lc := jsToLower ((e.raw ++ '\n' :: l) ++ ' ' ::
                  jsStrOfOpt (some (jsStrOfOpt e.message ++ '\n' :: l))) }, n) := by
            unfold processLine
            rw [if_neg (by simp [hb])]
            simp [hc]
          rw [hstep]
          simp only [finishAcc, Option.toList_some] at h1 h2 ⊢
          constructor
          · rw [List.map_append] at h1 ⊢
            simpa using h1
          · simpa using h2
        · have hstep : processLine env (out, some e, n) l =
              (out ++ [e], some (newEntry env n l), n + 1) := by
            unfold processLine
            rw [if_neg (by simp [hb])]
            simp [hc]
          rw [hstep]
          simp only [finishAcc, Option.toList_some] at h1 h2 ⊢
          constructor
          · have hlen1 : (out ++ [e] ++ [newEntry env n l]).length =
                (out ++ [e]).length + 1 := by simp
            rw [List.map_append, h1, hlen1, List.range'_1_concat]
            have hid : List.map Entry.id [newEntry env n l] = [n] := rfl
            rw [hid, h2]
            simp [Nat.add_comm]
          · have hlen1 : (out ++ [e] ++ [newEntry env n l]).length =
                (out ++ [e]).length + 1 := by simp
            rw [hlen1]
            omega

theorem foldl_processLine_ids (env : ParserEnv) :
    ∀ (ls : List (List Char)) (st : ParseAcc),
      (finishAcc st).map Entry.id = List.range' 1 (finishAcc st).length →
      st.2.2 = (finishAcc st).length + 1 →
      (finishAcc (ls.foldl (processLine env) st)).map Entry.id =
        List.range' 1 (finishAcc (ls.foldl (processLine env) st)).length := by
  intro ls
  induction ls with
  | nil => intro st h1 _; exact h1
  | cons l ls2 ih =>
      intro st h1 h2
      rw [List.foldl_cons]
      obtain ⟨g1, g2⟩ := processLine_ids env st l h1 h2
      exact ih (processLine env st l) g1 g2

/-- The ids assigned by `parseLogText` are `1, 2, …, n` in order. -/
theorem parseLogText_ids (env : ParserEnv) (text : List Char) :
    (parseLogText env text).map Entry.id =
      List.range' 1 (parseLogText env text).length := by
  unfold parseLogText
  exact foldl_processLine_ids env (splitLines text) ([], none, 1)
    (by simp [finishAcc]) (by simp [finishAcc])

/-! ## Structured Rule Evaluator (`shared.js`: `OPERATORS`, `evaluateRule`,
`evaluateRules`)

Field values are dynamically typed in the source; `JSVal` models the value
shapes that occur (strings, numbers, arrays of captured values, `null`,
`undefined`).  Operator functions return `Option Bool`: `none` models a
thrown exception (only the host regex of `matches` can throw), which
`evaluateRule`'s `try/catch` converts to `false`. -/

inductive JSVal where
  | vStr (s : List Char)
  | vNum (n : Int)
  | vArr (elems : List (Option (List Char)))
  | vNull
  | vUndef
deriving Repr, DecidableEq

/-- Decimal rendering of an integer (`Number.prototype.toString` for
integers). -/
def intToChars (n : Int) : List Char :=
  if n < 0 then '-' :: (Int.natAbs n).repr.toList else n.toNat.repr.toList

/-- `String(v)` for an array element (captured values can be `undefined`,
which `String(...)` renders as `"undefined"`). -/
def elemStr (v : Option (List Char)) : List Char :=
  match v with
  | some s => s
  | none => "undefined".toList

/-- Elements of an array joined by `','` with null/undefined elements
rendered empty (`Array.prototype.toString`). -/
def joinCommaArr : List (Option (List Char)) → List Char
  | [] => []
  | [v] => v.getD []
  | v :: rest => v.getD [] ++ ',' :: joinCommaArr rest

/-- `String(v)`. -/
def jsToStr : JSVal → List Char
  | JSVal.vStr s => s
  | JSVal.vNum n => intToChars n
  | JSVal.vArr l => joinCommaArr l
  | JSVal.vNull => "null".toList
  | JSVal.vUndef => "undefined".toList

/-- JavaScript falsiness (`!v`). -/
def jsFalsy : JSVal → Bool
  | JSVal.vStr s => s = []
  | JSVal.vNum n => n = 0
  | JSVal.vArr _ => false
  | JSVal.vNull => true
  | JSVal.vUndef => true

/-- `v.length === 0` (arrays and strings have a length; other values
yield `undefined`, which compares false). -/
def jsLenEq0 : JSVal → Bool
  | JSVal.vArr l => l = []
  | JSVal.vStr s => s = []
  | _ => false

/-- `v.length > 0` (same remark). -/
def jsLenGt0 : JSVal → Bool
  | JSVal.vArr l => l ≠ []
  | JSVal.vStr s => s ≠ []
  | _ => false

/-- `text.split(',')` (no-limit string split on a comma). -/
def splitComma (cs : List Char) : List (List Char) :=
  go [] cs
where
  go (acc : List Char) : List Char → List (List Char)
  | [] => [acc.reverse]
  | c :: rest =>
      if c = ',' then acc.reverse :: go [] rest else go (c :: acc) rest

/-- Host-platform services used by the operator tables: the `RegExp`
test of `matches` (`none` = pattern failed to compile, i.e. a thrown
error), `parseFloat` (`none` = `NaN`), the shared `parseTimestampToISO`
(`[]` = empty string on failure; its body mixes fixed regexes with host
`Date` construction, and the date operators only use its output), and
`new Date(s).getTime()` in milliseconds (`none` = invalid date). -/
structure OpEnv where
  regexTestI : List Char → List Char → Option Bool
  parseFloat : List Char → Option Rat
  parseTimestampToISO : List Char → List Char
  dateValueMs : List Char → Option Int

/-- `parseTimestampToISO(v) || v` from the date operators. -/
def psOr (env : OpEnv) (s : List Char) : List Char :=
  if env.parseTimestampToISO s = [] then s else env.parseTimestampToISO s

/-- The `text` operator table of `OPERATORS`. -/
def OPERATORS_text (env : OpEnv) :
    List (String × (JSVal → JSVal → Option Bool)) :=
  [("equals", fun a b => some (decide (jsToStr a = jsToStr b))),
   ("notEquals", fun a b => some (decide (jsToStr a ≠ jsToStr b))),
   ("contains", fun a b =>
      some (jsIncludes (jsToLower (jsToStr a)) (jsToLower (jsToStr b)))),
   ("notContains", fun a b =>
      some (!(jsIncludes (jsToLower (jsToStr a)) (jsToLower (jsToStr b))))),
   ("startsWith", fun a b =>
      some ((jsToLower (jsToStr b)).isPrefixOf (jsToLower (jsToStr a)))),
   ("endsWith", fun a b =>
      some ((jsToLower (jsToStr b)).reverse.isPrefixOf
        (jsToLower (jsToStr a)).reverse)),
   ("matches", fun a b => env.regexTestI (jsToStr b) (jsToStr a)),
   ("empty", fun a _ => some (jsFalsy a ||
      (match a with | JSVal.vArr l => decide (l = []) | _ => false))),
   ("notEmpty", fun a _ => some ((!jsFalsy a) &&
      (match a with | JSVal.vArr l => decide (l ≠ []) | _ => true)))]

/-- The `numeric` operator table (`parseFloat` both operands; any
comparison involving `NaN` is false — in particular `!==` on two `NaN`s
is true). -/
def OPERATORS_numeric (env : OpEnv) :
    List (String × (JSVal → JSVal → Option Bool)) :=
  let pf := fun v => env.parseFloat (jsToStr v)
  [("equals", fun a b => some (match pf a, pf b with
      | some x, some y => decide (x = y) | _, _ => false)),
   ("notEquals", fun a b => some (!(match pf a, pf b with
      | some x, some y => decide (x = y) | _, _ => false))),
   ("greaterThan", fun a b => some (match pf a, pf b with
      | some x, some y => decide (x > y) | _, _ => false)),
   ("greaterOrEqual", fun a b => some (match pf a, pf b with
      | some x, some y => decide (x ≥ y) | _, _ => false)),
   ("lessThan", fun a b => some (match pf a, pf b with
      | some x, some y => decide (x < y) | _, _ => false)),
   ("lessOrEqual", fun a b => some (match pf a, pf b with
      | some x, some y => decide (x ≤ y) | _, _ => false))]

/-- The `date` operator table.  Day equality of `equals`("on") compares
the UTC calendar day, i.e. the floor of the epoch milliseconds by
86 400 000, which is exactly comparing the date portions of the
`toISOString` renderings. -/
def OPERATORS_date (env : OpEnv) :
    List (String × (JSVal → JSVal → Option Bool)) :=
  let dv := fun (v : JSVal) => env.dateValueMs (psOr env (jsToStr v))
  [("before", fun a b => some (match dv a, dv b with
      | some x, some y => decide (x < y) | _, _ => false)),
   ("after", fun a b => some (match dv a, dv b with
      | some x, some y => decide (x > y) | _, _ => false)),
   ("between", fun a b =>
      let parts := splitComma (if jsFalsy b then [] else jsToStr b)
      some (match parts with
        | p1 :: p2 :: _ =>
            (match env.dateValueMs (psOr env (jsToStr a)),
                env.dateValueMs (psOr env p1),
                env.dateValueMs (psOr env p2) with
             | some d, some s, some e => decide (s ≤ d ∧ d ≤ e)
             | _, _, _ => false)
        | _ => false)),
   ("equals", fun a b => some (match dv a, dv b with
      | some x, some y => decide (Int.fdiv x 86400000 = Int.fdiv y 86400000)
      | _, _ => false))]

/-- The `array` operator table. -/
def OPERATORS_array (env : OpEnv) :
    List (String × (JSVal → JSVal → Option Bool)) :=
  [("contains", fun a b => some (match a with
      | JSVal.vArr l => l.any (fun v =>
          jsIncludes (jsToLower (elemStr v)) (jsToLower (jsToStr b)))
      | _ => false)),
   ("containsAll", fun a b =>
      let values := (splitComma (jsToStr b)).map jsTrim
      some (values.all (fun v => match a with
        | JSVal.vArr l => l.any (fun av =>
            jsIncludes (jsToLower (elemStr av)) (jsToLower v))
        | _ => false))),
   ("containsAny", fun a b =>
      let values := (splitComma (jsToStr b)).map jsTrim
      some (values.any (fun v => match a with
        | JSVal.vArr l => l.any (fun av =>
            jsIncludes (jsToLower (elemStr av)) (jsToLower v))
        | _ => false))),
   ("empty", fun a _ => some (jsFalsy a || jsLenEq0 a)),
   ("notEmpty", fun a _ => some ((!jsFalsy a) && jsLenGt0 a))]

/-- `OPERATORS[fieldType]`: defined only for the four table names. -/
def OPERATORS (env : OpEnv) (fieldType : String) :
    Option (List (String × (JSVal → JSVal → Option Bool))) :=
  if fieldType = "text" then some (OPERATORS_text env)
  else if fieldType = "numeric" then some (OPERATORS_numeric env)
  else if fieldType = "date" then some (OPERATORS_date env)
  else if fieldType = "array" then some (OPERATORS_array env)
  else none

/-- A row as seen by the rule evaluator: the five reserved attributes
plus the extracted-field map. -/
structure EvalRow where
  id : JSVal
  ts : JSVal
  level : JSVal
  message : JSVal
  raw : JSVal
  fields : List (String × JSVal)

/-- A structured filter rule.  The random UUID `id` of the source rules
carries no evaluation semantics and is omitted. -/
structure FilterRule where
  field : String
  operator : String
  value : JSVal
  logic : Option String
  enabled : Option Bool

/-- Field-value resolution (`evaluateRule` step 2): a reserved name reads
the top-level attribute, anything else reads `fields` (missing keys give
`undefined`). -/
def resolveField (row : EvalRow) (f : String) : JSVal :=
  if f = "level" then row.level
  else if f = "ts" then row.ts
  else if f = "message" then row.message
  else if f = "raw" then row.raw
  else if f = "id" then row.id
  else (row.fields.lookup f).getD JSVal.vUndef

/-- "Empty" field value (`evaluateRule`): `undefined`, `null`, a
whitespace-only string, or a zero-length array. -/
def isEmptyVal : JSVal → Bool
  | JSVal.vUndef => true
  | JSVal.vNull => true
  | JSVal.vStr s => jsTrim s = []
  | JSVal.vArr l => l = []
  | JSVal.vNum _ => false

/-- "Empty" comparison value (`evaluateRule`): `undefined`, `null`, or
`String(rule.value).trim() === ''`. -/
def ruleValueEmpty : JSVal → Bool
  | JSVal.vUndef => true
  | JSVal.vNull => true
  | v => jsTrim (jsToStr v) = []

/-- `evaluateRule(row, rule)` (`shared.js`).  `reg` is the current
`FieldRegistry` lookup, mapping a field name to its inferred type when
registered (the registry is module-level mutable state in the source). -/
def evaluateRule (env : OpEnv) (reg : String → Option String)
    (row : EvalRow) (rule : FilterRule) : Bool :=
  if rule.enabled = some false then true
  else
    let fieldValue := resolveField row rule.field
    if isEmptyVal fieldValue then
      if rule.operator = "empty" then true
      else if rule.operator = "notEmpty" then false
      else false
    else if ruleValueEmpty rule.value then
      if rule.operator = "empty" then false
      else if rule.operator = "notEmpty" then true
      else false
    else
      let fieldType := (reg rule.field).getD
        (match fieldValue with | JSVal.vArr _ => "array" | _ => "text")
      let operators := (OPERATORS env fieldType).getD (OPERATORS_text env)
      match operators.find? (fun op => op.1 = rule.operator) with
      | none => true
      | some op => (op.2 fieldValue rule.value).getD false

/-- `rules[i-1].logic || 'AND'` (`null`, `undefined` and the empty string
are falsy). -/
def normLogic : Option String → String
  | none => "AND"
  | some s => if s = "" then "AND" else s

/-- One fold step of `evaluateRules`: combine the accumulated result with
the current rule's result under the previous rule's logic. -/
def applyLogic (prevLogic : String) (result ruleResult : Bool) : Bool :=
  if prevLogic = "AND" then result && ruleResult
  else if prevLogic = "OR" then result || ruleResult
  else result

/-- The loop of `evaluateRules`, with the source's early exit: stop when
the accumulated result is false under an `AND` connective and no rule
from the current one onwards carries an `OR` logic. -/
def evaluateRulesGo (env : OpEnv) (reg : String → Option String) (row : EvalRow)
    (result : Bool) (prev : Option String) : List FilterRule → Bool
  | [] => result
  | r :: rs =>
      let prevLogic := normLogic prev
      let result2 := applyLogic prevLogic result (evaluateRule env reg row r)
      if result2 = false ∧ prevLogic = "AND" ∧
          ((r :: rs).any (fun x => x.logic = some "OR")) = false then result2
      else evaluateRulesGo env reg row result2 r.logic rs

/-- `evaluateRules(row, rules)` (`shared.js`). -/
def evaluateRules (env : OpEnv) (reg : String → Option String) (row : EvalRow)
    (rules : List FilterRule) : Bool :=
  match rules with
  | [] => true
  | r0 :: rest =>
      evaluateRulesGo env reg row (evaluateRule env reg row r0) r0.logic rest

/-- Spec-side definition, following the spec's words: the plain
left-to-right fold of the single-rule results, `rule[i].logic` joining
`rule[i]` and `rule[i+1]`, with no early exit. -/
def evaluateRulesFoldGo (env : OpEnv) (reg : String → Option String)
    (row : EvalRow) (result : Bool) (prev : Option String) :
    List FilterRule → Bool
  | [] => result
  | r :: rs =>
      evaluateRulesFoldGo env reg row
        (applyLogic (normLogic prev) result (evaluateRule env reg row r))
        r.logic rs

/-- Spec-side definition: un-shortcut multi-rule fold. -/
def evaluateRulesFold (env : OpEnv) (reg : String → Option String)
    (row : EvalRow) (rules : List FilterRule) : Bool :=
  match rules with
  | [] => true
  | r0 :: rest =>
      evaluateRulesFoldGo env reg row (evaluateRule env reg row r0) r0.logic rest

theorem normLogic_ne_OR (l : Option String) (h : l ≠ some "OR") :
    normLogic l ≠ "OR" := by
  unfold normLogic
  cases l with
  | none => simp
  | some s =>
      show (if s = "" then "AND" else s) ≠ "OR"
      by_cases hs : s = ""
      · rw [if_pos hs]; simp
      · rw [if_neg hs]
        intro hcon
        exact h (by rw [hcon])

theorem evaluateRulesFoldGo_false (env : OpEnv) (reg : String → Option String)
    (row : EvalRow) :
    ∀ (rs : List FilterRule) (prev : Option String),
      normLogic prev ≠ "OR" → (∀ x ∈ rs, x.logic ≠ some "OR") →
      evaluateRulesFoldGo env reg row false prev rs = false := by
  intro rs
  induction rs with
  | nil => intro prev _ _; rfl
  | cons r rs2 ih =>
      intro prev hprev hall
      unfold evaluateRulesFoldGo
      have hstep : applyLogic (normLogic prev) false
          (evaluateRule env reg row r) = false := by
        unfold applyLogic
        by_cases h1 : normLogic prev = "AND"
        · rw [if_pos h1]; simp
        · rw [if_neg h1, if_neg hprev]
      rw [hstep]
      apply ih r.logic
      · exact normLogic_ne_OR r.logic (hall r (List.mem_cons_self r rs2))
      · exact fun x hx => hall x (List.mem_cons_of_mem r hx)

theorem evaluateRulesGo_eq_fold (env : OpEnv) (reg : String → Option String)
    (row : EvalRow) :
    ∀ (rs : List FilterRule) (result : Bool) (prev : Option String),
      evaluateRulesGo env reg row result prev rs =
        evaluateRulesFoldGo env reg row result prev rs := by
  intro rs
  induction rs with
  | nil => intro result prev; rfl
  | cons r rs2 ih =>
      intro result prev
      unfold evaluateRulesGo evaluateRulesFoldGo
      by_cases hbrk : applyLogic (normLogic prev) result
            (evaluateRule env reg row r) = false ∧ normLogic prev = "AND" ∧
          ((r :: rs2).any (fun x => x.logic = some "OR")) = false
      · rw [if_pos hbrk]
        obtain ⟨h0, _, hany⟩ := hbrk
        rw [h0]
        have hall : ∀ x ∈ r :: rs2, x.logic ≠ some "OR" := by
          intro x hx hcon
          have : (r :: rs2).any (fun x => x.logic = some "OR") = true := by
            rw [List.any_eq_true]
            exact ⟨x, hx, by simp [hcon]⟩
          rw [this] at hany
          simp at hany
        have hr : normLogic r.logic ≠ "OR" :=
          normLogic_ne_OR r.logic (hall r (List.mem_cons_self r rs2))
        rw [evaluateRulesFoldGo_false env reg row rs2 r.logic hr
          (fun x hx => hall x (List.mem_cons_of_mem r hx))]
      · rw [if_neg hbrk]
        exact ih _ _

/-- **C4** Multi-rule evaluation semantics: `evaluateRules` always equals
the full un-shortcut left-to-right fold of the single-rule results, with
`rule[i].logic` as the connective joining `rule[i]` and `rule[i+1]` — the
early exit (false accumulator under an `AND` connective with no `OR`
anywhere in the remaining rule list) never changes the result. -/
theorem multi_rule_fold_semantics (env : OpEnv) (reg : String → Option String)
    (row : EvalRow) (rules : List FilterRule) :
    evaluateRules env reg row rules = evaluateRulesFold env reg row rules := by
  cases rules with
  | nil => rfl
  | cons r0 rest =>
      unfold evaluateRules evaluateRulesFold
      exact evaluateRulesGo_eq_fold env reg row rest _ _

/-- **C3** Rule evaluator boundary cases: an (enabled) rule with operator
`empty` against a field resolving to an empty/whitespace-only string,
`null`, `undefined` or `[]` evaluates true in all four cases; `notEmpty`
evaluates false in all four; and a rule with any other operator whose own
comparison value is empty or whitespace-only (or null/undefined)
evaluates false, whatever the field value. -/
theorem rule_evaluator_boundary_cases :
    (∀ (env : OpEnv) (reg : String → Option String) (row : EvalRow)
        (rule : FilterRule), rule.enabled ≠ some false →
      ((∃ s, resolveField row rule.field = JSVal.vStr s ∧ jsTrim s = []) ∨
        resolveField row rule.field = JSVal.vNull ∨
        resolveField row rule.field = JSVal.vUndef ∨
        resolveField row rule.field = JSVal.vArr []) →
      (rule.operator = "empty" → evaluateRule env reg row rule = true) ∧
      (rule.operator = "notEmpty" → evaluateRule env reg row rule = false)) ∧
    (∀ (env : OpEnv) (reg : String → Option String) (row : EvalRow)
        (rule : FilterRule), rule.enabled ≠ some false →
      rule.operator ≠ "empty" → rule.operator ≠ "notEmpty" →
      ruleValueEmpty rule.value = true →
      evaluateRule env reg row rule = false) := by
  constructor
  · intro env reg row rule hen hfv
    have hempty : isEmptyVal (resolveField row rule.field) = true := by
      rcases hfv with ⟨s, hs, hts⟩ | hn | hu | ha
      · rw [hs]; simpa [isEmptyVal] using hts
      · rw [hn]; rfl
      · rw [hu]; rfl
      · rw [ha]; rfl
    constructor
    · intro hop
      unfold evaluateRule
      rw [if_neg hen, if_pos hempty, if_pos hop]
    · intro hop
      unfold evaluateRule
      rw [if_neg hen, if_pos hempty,
        if_neg (by rw [hop]; decide), if_pos hop]
  · intro env reg row rule hen hne hnne hval
    unfold evaluateRule
    rw [if_neg hen]
    by_cases hempty : isEmptyVal (resolveField row rule.field) = true
    · rw [if_pos hempty, if_neg hne, if_neg hnne]
    · rw [if_neg hempty, if_pos hval, if_neg hne, if_neg hnne]

/-- Witness for C3 at concrete inputs: a row whose `message` is the empty
string, whose `args` field is `[]`, and a missing field (`undefined`). -/
theorem rule_evaluator_boundary_cases_witness :
    evaluateRule ⟨fun _ _ => some false, fun _ => none, fun _ => [], fun _ => none⟩
      (fun _ => none)
      ⟨JSVal.vNum 1, JSVal.vStr [], JSVal.vStr ("INFO".toList),
        JSVal.vStr [], JSVal.vStr [], [("args", JSVal.vArr [])]⟩
      ⟨"message", "empty", JSVal.vStr ("x".toList), none, none⟩ = true ∧
    evaluateRule ⟨fun _ _ => some false, fun _ => none, fun _ => [], fun _ => none⟩
      (fun _ => none)
      ⟨JSVal.vNum 1, JSVal.vStr [], JSVal.vStr ("INFO".toList),
        JSVal.vStr [], JSVal.vStr [], [("args", JSVal.vArr [])]⟩
      ⟨"args", "notEmpty", JSVal.vStr ("x".toList), none, none⟩ = false ∧
    evaluateRule ⟨fun _ _ => some false, fun _ => none, fun _ => [], fun _ => none⟩
      (fun _ => none)
      ⟨JSVal.vNum 1, JSVal.vStr [], JSVal.vStr ("INFO".toList),
        JSVal.vStr [], JSVal.vStr [], [("args", JSVal.vArr [])]⟩
      ⟨"level", "contains", JSVal.vStr ("  ".toList), none, none⟩ = false := by
  refine ⟨?_, ?_, ?_⟩
  · exact (rule_evaluator_boundary_cases.1 _ _ _ _ (by simp)
      (Or.inl ⟨[], by constructor <;> rfl⟩)).1 rfl
  · exact (rule_evaluator_boundary_cases.1 _ _ _ _ (by simp)
      (Or.inr (Or.inr (Or.inr (by rfl))))).2 rfl
  · exact rule_evaluator_boundary_cases.2 _ _ _ _ (by simp)
      (by simp) (by simp) (by rfl)

/-- **C10** Implicit: for an enabled rule whose resolved field value and
comparison value are both non-empty, if the rule's operator name is not
found in the operator table selected by the field's registry-inferred
type (defaulting to `array`/`text` when unregistered), `evaluateRule`
returns true — the rule silently matches every such entry. -/
theorem unknown_operator_matches_all (env : OpEnv)
    (reg : String → Option String) (row : EvalRow) (rule : FilterRule)
    (hen : rule.enabled ≠ some false)
    (hfv : isEmptyVal (resolveField row rule.field) = false)
    (hval : ruleValueEmpty rule.value = false)
    (hop : ((OPERATORS env ((reg rule.field).getD
        (match resolveField row rule.field with
         | JSVal.vArr _ => "array"
         | _ => "text"))).getD (OPERATORS_text env)).find?
      (fun op => op.1 = rule.operator) = none) :
    evaluateRule env reg row rule = true := by
  unfold evaluateRule
  rw [if_neg hen, if_neg (by rw [hfv]; decide), if_neg (by rw [hval]; decide)]
  simp only [hop]

/-- Witness for C10: operator `matches` against a field registered as
`numeric` (whose table has no `matches`) silently matches. -/
theorem unknown_operator_matches_all_witness :
    evaluateRule ⟨fun _ _ => some false, fun _ => none, fun _ => [], fun _ => none⟩
      (fun f => if f = "latency" then some "numeric" else none)
      ⟨JSVal.vNum 1, JSVal.vStr [], JSVal.vStr [], JSVal.vStr [], JSVal.vStr [],
        [("latency", JSVal.vStr ("150".toList))]⟩
      ⟨"latency", "matches", JSVal.vStr ("1.*".toList), none, none⟩ = true := by
  exact unknown_operator_matches_all _ _ _ _ (by simp) (by rfl) (by rfl) (by rfl)

/-! ## Named-Capture Field Extractor (`runSingleExtractor`, worker)

The user-supplied regular expression is a host-platform service: an
`ExtractorEnv` provides `new RegExp(pattern, 'g')` as an optional compiled
matcher (`none` models the thrown `SyntaxError` of an invalid pattern),
where a compiled matcher maps a raw text to the `[...raw.matchAll(re)]`
list of matches, each match contributing its `m.groups || {}` object as an
ordered association list — per ECMAScript, the groups object of a match
lists *every* group name of the pattern, with `undefined`
(here `Option.none`) for groups that did not participate in that match. -/

/-- A match's named-groups object: group name to captured value
(`none` = the group did not participate in this match). -/
abbrev JSMatch := List (String × Option String)

structure ExtractorEnv where
  compile : String → Option (List Char → List JSMatch)
  parseTimestampToISO : String → String

/-- `String(v)` for a captured value (`undefined` renders as
`"undefined"`). -/
def jsStrOfOptS (v : Option String) : String := v.getD "undefined"

/-- ASCII upper-casing on `String`. -/
def jsToUpperS (s : String) : String := String.mk (jsToUpper s.toList)

/-- One step of the capture-collection loop:
`if (!groupValues[key]) groupValues[key] = []; groupValues[key].push(val)`
(an existing entry is always a truthy array, so the guard is key
presence). -/
def upsertGroup (gv : List (String × List (Option String)))
    (kv : String × Option String) : List (String × List (Option String)) :=
  if (gv.lookup kv.1).isSome then
    gv.map (fun p => if p.1 = kv.1 then (p.1, p.2 ++ [kv.2]) else p)
  else gv ++ [(kv.1, [kv.2])]

/-- Collect all captures of all matches into per-group arrays
(`groupValues` in `runSingleExtractor`): every `[key, val]` entry of every
match's groups object is pushed, in match order — including `undefined`
values for non-participating groups. -/
def collectGroups (ms : List JSMatch) : List (String × List (Option String)) :=
  ms.foldl (fun gv m => m.foldl upsertGroup gv) []

/-- `Object.assign({}, fields, gv)`: existing keys keep their position and
take `gv`'s value when present; genuinely new keys of `gv` are appended in
order. -/
def assignMerge (fields gv : List (String × List (Option String))) :
    List (String × List (Option String)) :=
  fields.map (fun p => match gv.lookup p.1 with
    | some v => (p.1, v)
    | none => p) ++
  gv.filter (fun kv => (fields.lookup kv.1).isNone)

/-- The merge-strategy dispatch of `runSingleExtractor` (`last-wins` and
`merge` are the same assignment; `first-wins` only adds new keys; an
unknown strategy leaves the fields untouched). -/
def mergeFields (strategy : String)
    (fields gv : List (String × List (Option String))) :
    List (String × List (Option String)) :=
  if strategy = "last-wins" then assignMerge fields gv
  else if strategy = "first-wins" then
    fields ++ gv.filter (fun kv => (fields.lookup kv.1).isNone)
  else if strategy = "merge" then assignMerge fields gv
  else fields

/-- Reserved-capture post-processing of `runSingleExtractor` (using only
the first captured value): a parseable `ts` capture overwrites the entry
timestamp; a `level` capture is upper-cased and WARN-canonicalised; a
`message` capture replaces the message verbatim (an `undefined` capture
makes the message `undefined`). -/
def applyReserved (env : ExtractorEnv) (r : Entry)
    (gv : List (String × List (Option String))) : Entry :=
  let r1 := match gv.lookup "ts" with
    | some (v0 :: _) =>
        let iso := match v0 with
          | some s => env.parseTimestampToISO s
          | none => ""
        if iso ≠ "" then { r with ts := iso } else r
    | _ => r
  let r2 := match gv.lookup "level" with
    | some (v0 :: _) =>
        let lvl := jsToUpperS (jsStrOfOptS v0)
        { r1 with level := if lvl = "WARN" then "WARNING" else lvl }
    | _ => r1
  match gv.lookup "message" with
  | some (v0 :: _) => { r2 with message := v0.map String.toList }
  | _ => r2

/-- The names added to the worker's `fieldNames` tracking set for one hit
entry: every captured group name except `ts`, `level`, `message` (the set
is deduplicated). -/
def trackNames (names : List String)
    (gv : List (String × List (Option String))) : List String :=
  gv.foldl (fun ns kv =>
    if kv.1 = "ts" ∨ kv.1 = "level" ∨ kv.1 = "message" then ns
    else if kv.1 ∈ ns then ns else ns ++ [kv.1]) names

/-- The per-entry transformation of `runSingleExtractor`: zero matches or
an empty group collection skip the entry; otherwise the captured groups
are merged into `fields` and the reserved captures post-processed. -/
def extractorStep (env : ExtractorEnv) (re : List Char → List JSMatch)
    (strategy : String) (r : Entry) : Entry :=
  let ms := re r.raw
  if ms = [] then r
  else
    let gv := collectGroups ms
    if gv = [] then r
    else applyReserved env { r with fields := mergeFields strategy r.fields gv } gv

/-- Whether an entry counts toward `hitCount`. -/
def extractorHit (re : List Char → List JSMatch) (r : Entry) : Bool :=
  !(re r.raw).isEmpty && !(collectGroups (re r.raw)).isEmpty

/-- The fold body of `runSingleExtractor`'s entry loop, accumulating
`(hitCount, processed rows, tracked field names)`. -/
def extractorFoldStep (env : ExtractorEnv) (re : List Char → List JSMatch)
    (strategy : String) (acc : Nat × List Entry × List String) (r : Entry) :
    Nat × List Entry × List String :=
  let ms := re r.raw
  if ms = [] then (acc.1, acc.2.1 ++ [r], acc.2.2)
  else
    let gv := collectGroups ms
    if gv = [] then (acc.1, acc.2.1 ++ [r], acc.2.2)
    else
      (acc.1 + 1,
       acc.2.1 ++ [applyReserved env
         { r with fields := mergeFields strategy r.fields gv } gv],
       trackNames acc.2.2 gv)

/-- `runSingleExtractor(pattern, scope, mergeStrategy)` (worker): compile
the pattern (an invalid pattern logs and returns 0 hits, mutating
nothing), then process each entry in order, accumulating the hit count
and the tracked field names. -/
def runSingleExtractor (env : ExtractorEnv) (pattern : String)
    (scope : List Entry) (strategy : String) :
    Nat × List Entry × List String :=
  match env.compile pattern with
  | none => (0, scope, [])
  | some re => scope.foldl (extractorFoldStep env re strategy) (0, [], [])

theorem lookup_map_update (k : String) (v : Option String) :
    ∀ (gv : List (String × List (Option String))) (vs : List (Option String)),
      gv.lookup k = some vs →
      (gv.map (fun p => if p.1 = k then (p.1, p.2 ++ [v]) else p)).lookup k =
        some (vs ++ [v]) := by
  intro gv
  induction gv with
  | nil => intro vs h; simp at h
  | cons p ps ih =>
      intro vs h
      by_cases hp : p.1 = k
      · rw [List.lookup_cons] at h
        rw [show (k == p.1) = true by simp [hp]] at h
        simp only at h
        cases h
        simp only [List.map_cons, if_pos hp]
        rw [List.lookup_cons]
        rw [show (k == p.1) = true by simp [hp]]
      · rw [List.lookup_cons] at h
        rw [show (k == p.1) = false by simp; exact fun hc => hp hc.symm] at h
        simp only at h
        simp only [List.map_cons, if_neg hp]
        rw [List.lookup_cons]
        rw [show (k == p.1) = false by simp; exact fun hc => hp hc.symm]
        simp only
        exact ih vs h

theorem lookup_map_update_ne (k key : String) (v : Option String) (hne : k ≠ key) :
    ∀ (gv : List (String × List (Option String))),
      (gv.map (fun p => if p.1 = k then (p.1, p.2 ++ [v]) else p)).lookup key =
        gv.lookup key := by
  intro gv
  induction gv with
  | nil => simp
  | cons p ps ih =>
      by_cases hp : p.1 = k
      · simp only [List.map_cons, if_pos hp]
        rw [List.lookup_cons, List.lookup_cons]
        rw [show (key == p.1) = false by simp [hp]; exact fun hc => hne hc.symm]
        simp only
        exact ih
      · simp only [List.map_cons, if_neg hp]
        rw [List.lookup_cons, List.lookup_cons]
        by_cases hkey : key = p.1
        · rw [show (key == p.1) = true by simp [hkey]]
        · rw [show (key == p.1) = false by simp [hkey]]
          simp only
          exact ih

theorem upsertGroup_lookup_self (gv : List (String × List (Option String)))
    (k : String) (v : Option String) :
    (upsertGroup gv (k, v)).lookup k =
      match gv.lookup k with
      | some vs => some (vs ++ [v])
      | none => some [v] := by
  unfold upsertGroup
  cases hlk : gv.lookup k with
  | none =>
      rw [if_neg (by simp [hlk])]
      rw [List.lookup_append, hlk]
      simp
  | some vs =>
      rw [if_pos (by simp [hlk])]
      exact lookup_map_update k v gv vs hlk

theorem upsertGroup_lookup_ne (gv : List (String × List (Option String)))
    (k : String) (v : Option String) (key : String) (h : k ≠ key) :
    (upsertGroup gv (k, v)).lookup key = gv.lookup key := by
  unfold upsertGroup
  by_cases hk : (gv.lookup k).isSome
  · rw [if_pos hk]
    exact lookup_map_update_ne k key v h gv
  · rw [if_neg hk]
    rw [List.lookup_append]
    cases hlk : gv.lookup key with
    | some vs => rfl
    | none =>
        simp only [Option.none_orElse]
        rw [List.lookup_cons]
        rw [show (key == k) = false by simp; exact fun hc => h hc.symm]
        rfl

theorem match_foldl_lookup (key : String) :
    ∀ (m : JSMatch) (gv : List (String × List (Option String))),
      (m.map Prod.fst).Nodup →
      (m.foldl upsertGroup gv).lookup key =
        match gv.lookup key, m.lookup key with
        | none, none => none
        | some vs, none => some vs
        | none, some v => some [v]
        | some vs, some v => some (vs ++ [v]) := by
  intro m
  induction m with
  | nil =>
      intro gv _
      simp only [List.foldl_nil, List.lookup_nil]
      cases h : gv.lookup key <;> rfl
  | cons kv m2 ih =>
      intro gv hnd
      obtain ⟨k, v⟩ := kv
      simp only [List.map_cons, List.nodup_cons] at hnd
      obtain ⟨hk_notin, hnd2⟩ := hnd
      rw [List.foldl_cons]
      by_cases hkk : k = key
      · subst hkk
        have hm2 : m2.lookup k = none := by
          cases hlk : m2.lookup k with
          | none => rfl
          | some w =>
              exfalso
              apply hk_notin
              have hsome : (m2.lookup k).isSome := by rw [hlk]; rfl
              rw [List.lookup_isSome_iff] at hsome
              obtain ⟨p, hp, hpk⟩ := hsome
              rw [List.mem_map]
              exact ⟨p, hp, (by simpa using hpk : k = p.1).symm⟩
        rw [ih (upsertGroup gv (k, v)) hnd2]
        rw [upsertGroup_lookup_self, hm2, List.lookup_cons_self]
        cases gv.lookup k <;> rfl
      · rw [ih (upsertGroup gv (k, v)) hnd2]
        rw [upsertGroup_lookup_ne gv k v key hkk]
        rw [List.lookup_cons]
        rw [show (key == k) = false by simpa using fun hc => hkk hc.symm]

theorem collectGroups_foldl_lookup (key : String) :
    ∀ (ms : List JSMatch) (gv : List (String × List (Option String))),
      (∀ m ∈ ms, (m.map Prod.fst).Nodup) →
      (ms.foldl (fun gv m => m.foldl upsertGroup gv) gv).lookup key =
        match gv.lookup key with
        | some vs => some (vs ++ ms.filterMap (fun m => m.lookup key))
        | none =>
            if ms.all (fun m => (m.lookup key).isNone) then none
            else some (ms.filterMap (fun m => m.lookup key)) := by
  intro ms
  induction ms with
  | nil =>
      intro gv _
      simp only [List.foldl_nil]
      cases h : gv.lookup key with
      | some vs => simp
      | none => simp
  | cons m ms2 ih =>
      intro gv hnd
      rw [List.foldl_cons]
      rw [ih (m.foldl upsertGroup gv) (fun x hx => hnd x (List.mem_cons_of_mem m hx))]
      rw [match_foldl_lookup key m gv (hnd m (List.mem_cons_self m ms2))]
      cases hgv : gv.lookup key with
      | some vs =>
          cases hm : m.lookup key with
          | none =>
              simp only [List.filterMap_cons, List.all_cons, hm,
                Option.isNone_none, Bool.true_and]
          | some v =>
              simp only [List.filterMap_cons, List.all_cons, hm,
                Option.isNone_some, Bool.false_and]
              simp
      | none =>
          cases hm : m.lookup key with
          | none =>
              simp only [List.filterMap_cons, List.all_cons, hm,
                Option.isNone_none, Bool.true_and]
          | some v =>
              simp only [List.filterMap_cons, List.all_cons, hm,
                Option.isNone_some, Bool.false_and]
              simp

/-- The per-group arrays collected by `runSingleExtractor`: a group
that occurs in no match is absent; otherwise its array is the group's
value in every match that lists it, in match order — `undefined`
(`none`) entries included for matches where the group did not
participate.  (Per ECMAScript a match's groups object has no duplicate
names, the `Nodup` hypothesis.) -/
theorem collectGroups_lookup (ms : List JSMatch) (key : String)
    (hnd : ∀ m ∈ ms, (m.map Prod.fst).Nodup) :
    (collectGroups ms).lookup key =
      if ms.all (fun m => (m.lookup key).isNone) then none
      else some (ms.filterMap (fun m => m.lookup key)) := by
  unfold collectGroups
  rw [collectGroups_foldl_lookup key ms [] hnd]
  rfl

theorem extractorFoldStep_proj (env : ExtractorEnv)
    (re : List Char → List JSMatch) (strategy : String)
    (acc : Nat × List Entry × List String) (r : Entry) :
    (extractorFoldStep env re strategy acc r).2.1 =
      acc.2.1 ++ [extractorStep env re strategy r] ∧
    (extractorFoldStep env re strategy acc r).1 =
      acc.1 + (if extractorHit re r then 1 else 0) := by
  unfold extractorFoldStep extractorStep extractorHit
  by_cases hms : re r.raw = []
  · rw [if_pos hms, if_pos hms]
    constructor
    · rfl
    · rw [if_neg (by simp [hms])]
      rfl
  · rw [if_neg hms, if_neg hms]
    by_cases hgv : collectGroups (re r.raw) = []
    · rw [if_pos hgv, if_pos hgv]
      constructor
      · rfl
      · rw [if_neg (by simp [hgv])]
        rfl
    · rw [if_neg hgv, if_neg hgv]
      constructor
      · rfl
      · rw [if_pos (by simp [hms, hgv])]

theorem runSingleExtractor_foldl (env : ExtractorEnv)
    (re : List Char → List JSMatch) (strategy : String) :
    ∀ (scope : List Entry) (acc : Nat × List Entry × List String),
      (scope.foldl (extractorFoldStep env re strategy) acc).2.1 =
        acc.2.1 ++ scope.map (extractorStep env re strategy) ∧
      (scope.foldl (extractorFoldStep env re strategy) acc).1 =
        acc.1 + (scope.filter (extractorHit re)).length := by
  intro scope
  induction scope with
  | nil => intro acc; exact ⟨by simp, by simp⟩
  | cons r rest ih =>
      intro acc
      simp only [List.foldl_cons]
      obtain ⟨hp1, hp2⟩ := extractorFoldStep_proj env re strategy acc r
      obtain ⟨ih1, ih2⟩ := ih (extractorFoldStep env re strategy acc r)
      refine ⟨?_, ?_⟩
      · rw [ih1, hp1, List.map_cons]
        simp
      · rw [ih2, hp2, List.filter_cons]
        by_cases hh : extractorHit re r = true
        · rw [if_pos hh, if_pos hh]
          simp
          omega
        · rw [if_neg hh, if_neg (by simpa using hh)]
          simp

/-- `runSingleExtractor` on a successfully compiled pattern processes the
entries independently and in order: the result rows are the map of the
per-entry step over the scope, and `hitCount` counts exactly the entries
with at least one match and a non-empty group collection. -/
theorem runSingleExtractor_map (env : ExtractorEnv) (pattern : String)
    (re : List Char → List JSMatch) (hre : env.compile pattern = some re)
    (scope : List Entry) (strategy : String) :
    (runSingleExtractor env pattern scope strategy).2.1 =
      scope.map (extractorStep env re strategy) ∧
    (runSingleExtractor env pattern scope strategy).1 =
      (scope.filter (extractorHit re)).length := by
  unfold runSingleExtractor
  simp only [hre]
  obtain ⟨h1, h2⟩ := runSingleExtractor_foldl env re strategy scope (0, [], [])
  exact ⟨by rw [h1]; simp, by rw [h2]; simp⟩

/-- **C8** Invalid extractor pattern atomicity: for every pattern string
that fails to compile and every entry list and merge strategy,
`runSingleExtractor` returns `hitCount = 0` and leaves every entry
untouched (the returned scope is the input scope, so every entry's
`fields`, `ts`, `level` and `message` are unchanged); the failure is
logged, not thrown. -/
theorem invalid_pattern_atomicity (env : ExtractorEnv) (pattern : String)
    (scope : List Entry) (strategy : String)
    (hbad : env.compile pattern = none) :
    runSingleExtractor env pattern scope strategy = (0, scope, []) := by
  unfold runSingleExtractor
  simp only [hbad]

/-- Witness for C8: a concrete environment on which the pattern
`"(?<invalid"` fails to compile (as in `src/tests`). -/
theorem invalid_pattern_atomicity_witness :
    runSingleExtractor ⟨fun _ => none, fun _ => ""⟩ "(?<invalid"
      [⟨1, "", "", some ("test".toList), "test".toList, [], []⟩] "last-wins" =
      (0, [⟨1, "", "", some ("test".toList), "test".toList, [], []⟩], []) :=
  invalid_pattern_atomicity ⟨fun _ => none, fun _ => ""⟩ "(?<invalid"
    [⟨1, "", "", some ("test".toList), "test".toList, [], []⟩] "last-wins" rfl

/-- **C7 counterexample** The claim says non-participating groups are
*skipped*; the code pushes their `undefined` values instead.  With the
host matcher of `/(?<a>x)|(?<b>y)/g` on raw text `"xy"` (two matches; per
ECMAScript each match's groups object lists both names, the absent one
`undefined`), the collected array for group `a` is
`[x, undefined]`, not `[x]`. -/
theorem extractor_skipping_counterexample :
    ((runSingleExtractor
        ⟨fun p => if p = "(?<a>x)|(?<b>y)" then some (fun raw =>
            if raw = "xy".toList then
              [[("a", some "x"), ("b", none)], [("a", none), ("b", some "y")]]
            else []) else none, fun _ => ""⟩
        "(?<a>x)|(?<b>y)"
        [⟨1, "", "", some ("xy".toList), "xy".toList, [], []⟩]
        "last-wins").2.1).map (fun r => r.fields.lookup "a") =
      [some [some "x", none]] ∧
    ([some "x", none] : List (Option String)) ≠ [some "x"] := by
  constructor
  · rfl
  · decide

/-- **C7 (amended)** Extractor capture collection: for every compiled
pattern, `runSingleExtractor` processes entries independently and in
order — an entry with zero matches is skipped entirely (unchanged, not
counted toward `hitCount`) — and collects each named group's value in
every match, in match order, into the per-group array, *including*
`undefined` entries for matches where the group did not participate
(not skipping them); in particular `(?<num>\d+)` against `"1 2 3"`
yields `num = ["1","2","3"]` and `key=(?<key>\w+)` against
`"key=val1 key=val2"` yields `fields.key = ["val1","val2"]`. -/
theorem extractor_capture_collection :
    (∀ (env : ExtractorEnv) (pattern : String)
        (re : List Char → List JSMatch),
      env.compile pattern = some re →
      ∀ (scope : List Entry) (strategy : String),
        (runSingleExtractor env pattern scope strategy).2.1 =
          scope.map (extractorStep env re strategy) ∧
        (runSingleExtractor env pattern scope strategy).1 =
          (scope.filter (extractorHit re)).length) ∧
    (∀ (env : ExtractorEnv) (re : List Char → List JSMatch)
        (strategy : String) (r : Entry),
      re r.raw = [] → extractorStep env re strategy r = r ∧
        extractorHit re r = false) ∧
    (∀ (ms : List JSMatch) (key : String),
      (∀ m ∈ ms, (m.map Prod.fst).Nodup) →
      (collectGroups ms).lookup key =
        if ms.all (fun m => (m.lookup key).isNone) then none
        else some (ms.filterMap (fun m => m.lookup key))) ∧
    (((runSingleExtractor
        ⟨fun p => if p = "(?<num>\\d+)" then some (fun raw =>
            if raw = "1 2 3".toList then
              [[("num", some "1")], [("num", some "2")], [("num", some "3")]]
            else []) else none, fun _ => ""⟩
        "(?<num>\\d+)"
        [⟨1, "", "", some ("1 2 3".toList), "1 2 3".toList, [], []⟩]
        "last-wins").2.1).map Entry.fields =
      [[("num", [some "1", some "2", some "3"])]] ∧
     ((runSingleExtractor
        ⟨fun p => if p = "key=(?<key>\\w+)" then some (fun raw =>
            if raw = "key=val1 key=val2".toList then
              [[("key", some "val1")], [("key", some "val2")]]
            else []) else none, fun _ => ""⟩
        "key=(?<key>\\w+)"
        [⟨1, "", "", some ("key=val1 key=val2".toList),
          "key=val1 key=val2".toList, [], []⟩]
        "last-wins").2.1).map Entry.fields =
      [[("key", [some "val1", some "val2"])]]) := by
  refine ⟨?_, ?_, ?_, by constructor <;> rfl⟩
  · intro env pattern re hre scope strategy
    exact runSingleExtractor_map env pattern re hre scope strategy
  · intro env re strategy r hms
    constructor
    · unfold extractorStep
      rw [if_pos hms]
    · unfold extractorHit
      simp [hms]
  · intro ms key hnd
    exact collectGroups_lookup ms key hnd

/-- Witness for C7: the general conjuncts applied at the concrete `num`
oracle. -/
theorem extractor_capture_collection_witness :
    (runSingleExtractor
        ⟨fun p => if p = "(?<num>\\d+)" then some (fun raw =>
            if raw = "1 2 3".toList then
              [[("num", some "1")], [("num", some "2")], [("num", some "3")]]
            else []) else none, fun _ => ""⟩
        "(?<num>\\d+)"
        [⟨1, "", "", some ("1 2 3".toList), "1 2 3".toList, [], []⟩]
        "last-wins").1 = 1 := by
  have h := (extractor_capture_collection.1
    ⟨fun p => if p = "(?<num>\\d+)" then some (fun raw =>
        if raw = "1 2 3".toList then
          [[("num", some "1")], [("num", some "2")], [("num", some "3")]]
        else []) else none, fun _ => ""⟩
    "(?<num>\\d+)"
    (fun raw =>
        if raw = "1 2 3".toList then
          [[("num", some "1")], [("num", some "2")], [("num", some "3")]]
        else []) rfl
    [⟨1, "", "", some ("1 2 3".toList), "1 2 3".toList, [], []⟩]
    "last-wins").2
  rw [h]
  rfl


theorem applyReserved_fields (env : ExtractorEnv) (r : Entry)
    (gv : List (String × List (Option String))) :
    (applyReserved env r gv).fields = r.fields := by
  unfold applyReserved
  repeat' split
  all_goals dsimp only
  all_goals split_ifs <;> rfl


theorem lookup_map_assign (gv : List (String × List (Option String))) :
    ∀ (fields : List (String × List (Option String))) (k : String),
    (fields.map (fun p => match gv.lookup p.1 with
      | some v => (p.1, v)
      | none => p)).lookup k =
      match fields.lookup k with
      | none => none
      | some w => match gv.lookup k with
        | some v => some v
        | none => some w := by
  intro fields
  induction fields with
  | nil => intro k; simp
  | cons p ps ih =>
      intro k
      obtain ⟨pk, pv⟩ := p
      by_cases hp : k = pk
      · subst hp
        simp only [List.map_cons]
        cases hg : gv.lookup k with
        | some v => simp [hg, List.lookup_cons_self]
        | none => simp [hg, List.lookup_cons_self]
      · have hb : (k == pk) = false := by simpa using hp
        simp only [List.map_cons]
        cases hg : gv.lookup pk with
        | some v =>
            simp only [hg, List.lookup_cons, hb]
            exact ih k
        | none =>
            simp only [hg, List.lookup_cons, hb]
            exact ih k

theorem filter_lookup_none_keys (fields gv : List (String × List (Option String)))
    (k : String) (hk : fields.lookup k = none) :
    (gv.filter (fun kv => (fields.lookup kv.1).isNone)).lookup k = gv.lookup k := by
  induction gv with
  | nil => simp
  | cons q qs ih =>
      obtain ⟨qk, qv⟩ := q
      by_cases hq : k = qk
      · subst hq
        have hkeep : ((fields.lookup k).isNone : Bool) = true := by rw [hk]; rfl
        rw [List.filter_cons, if_pos (by simpa using hkeep)]
        rw [List.lookup_cons_self, List.lookup_cons_self]
      · have hb : (k == qk) = false := by simpa using hq
        rw [List.filter_cons]
        by_cases hkeep : ((fields.lookup qk).isNone : Bool) = true
        · rw [if_pos (by simpa using hkeep)]
          simp only [List.lookup_cons, hb]
          exact ih
        · rw [if_neg (by simpa using hkeep)]
          rw [ih]
          simp only [List.lookup_cons, hb]

theorem mergeFields_lastwins_isSome (fields gv : List (String × List (Option String)))
    (k : String) (h : (gv.lookup k).isSome) :
    ((mergeFields "last-wins" fields gv).lookup k).isSome := by
  unfold mergeFields assignMerge
  rw [if_pos rfl]
  rw [List.lookup_append]
  rw [lookup_map_assign gv fields k]
  obtain ⟨v, hv⟩ := Option.isSome_iff_exists.mp h
  cases hf : fields.lookup k with
  | some w =>
      rw [hv]
      rfl
  | none =>
      simp only [Option.none_or]
      rw [filter_lookup_none_keys fields gv k hf, hv]
      rfl


/-- **C9 counterexample** The claim says `fields` never contains the
reserved names; the extractor writes *every* captured group into
`fields`, reserved names included (only the `fieldNames` tracking set
excludes `ts`/`level`/`message`).  A `(?<ts>…)` capture lands in
`fields.ts` while also overwriting the entry timestamp. -/
theorem reserved_fields_counterexample :
    ((runSingleExtractor
        ⟨fun p => if p = "ts=(?<ts>\\S+)" then some (fun raw =>
            if raw = "ts=2023-01-01".toList then
              [[("ts", some "2023-01-01")]]
            else []) else none,
          fun s => if s = "2023-01-01" then "2023-01-01T00:00:00.000Z" else ""⟩
        "ts=(?<ts>\\S+)"
        [⟨1, "", "", some ("ts=2023-01-01".toList), "ts=2023-01-01".toList, [], []⟩]
        "last-wins").2.1).map (fun r => (r.fields.lookup "ts", r.ts)) =
      [(some [some "2023-01-01"], "2023-01-01T00:00:00.000Z")] := by
  rfl

/-- **C9 (amended)** LogEntry invariant: ids of one parse session are the
strictly increasing sequence 1, 2, …; `raw` is exactly the newline-join
of the lines physically merged into the entry; and — contrary to the
original claim — a hit entry's `fields` afterwards is the merge of its
previous fields with *all* collected capture groups, reserved names
(`ts`, `level`, `message`) included (under `last-wins` every captured
name, reserved or not, is present in `fields`); the reserved captures are
*additionally* written back to the top-level entry attributes, and only
the `fieldNames` tracking set excludes them. -/
theorem logentry_invariant :
    (∀ (env : ParserEnv) (text : List Char),
      ((parseLogText env text).map Entry.id).Pairwise (· < ·)) ∧
    (∀ (env : ParserEnv) (text : List Char),
      (parseLogText env text).map Entry.raw =
        (specGroups ((splitLines text).filter (fun l => !(blankLine l)))).map
          joinLinesNL) ∧
    (∀ (env : ExtractorEnv) (re : List Char → List JSMatch)
        (strategy : String) (r : Entry),
      re r.raw ≠ [] → collectGroups (re r.raw) ≠ [] →
      (extractorStep env re strategy r).fields =
        mergeFields strategy r.fields (collectGroups (re r.raw))) ∧
    (∀ (fields gv : List (String × List (Option String))) (k : String),
      (gv.lookup k).isSome →
      ((mergeFields "last-wins" fields gv).lookup k).isSome) := by
  refine ⟨?_, ?_, ?_, ?_⟩
  · intro env text
    rw [parseLogText_ids env text]
    exact List.pairwise_lt_range' 1 (parseLogText env text).length
  · intro env text
    exact (parseLogText_raw_groups env text).1
  · intro env re strategy r hms hgv
    unfold extractorStep
    rw [if_neg hms, if_neg hgv]
    rw [applyReserved_fields]
  · intro fields gv k h
    exact mergeFields_lastwins_isSome fields gv k h

/-- Witness for C9: the amended clauses at a concrete parse and a
concrete `ts` capture. -/
theorem logentry_invariant_witness :
    (((parseLogText ⟨fun _ _ _ _ _ _ _ => none, fun _ => none, 0, 0⟩
        ("a\nb".toList)).map Entry.id).Pairwise (· < ·)) ∧
    ((mergeFields "last-wins" []
        [("ts", [some "2023-01-01"])]).lookup "ts").isSome := by
  constructor
  · exact logentry_invariant.1 ⟨fun _ _ _ _ _ _ _ => none, fun _ => none, 0, 0⟩
      ("a\nb".toList)
  · exact logentry_invariant.2.2.2 [] [("ts", [some "2023-01-01"])] "ts" rfl


/-! ## Textual Query Compiler, flat dialect (`shared.js`: `QueryParser`,
`parseAdvancedQuery`)

The tokenizer's sticky regex alternatives are translated pattern by
pattern; the per-position priority order and the skip-unknown-character
fallback follow the source's loop. -/

inductive QTok where
  | FIELD_OP (field operator value : String)
  | FIELD (field operator value : String)
  | STRING (value : String)
  | AND
  | OR
  | NOT
  | LPAREN
  | RPAREN
  | WORD (value : String)
deriving Repr, DecidableEq

/-- `\w+` (at least one word character, maximal run). -/
def takeWord1 (cs : List Char) : Option (List Char × List Char) :=
  let t := cs.takeWhile jsWordChar
  if t = [] then none else some (t, cs.dropWhile jsWordChar)

/-- `[^\s)]+` (at least one character that is neither whitespace nor a
closing parenthesis). -/
def takeBare1 (cs : List Char) : Option (List Char × List Char) :=
  let p := fun c => !(jsWhitespace c) && c ≠ ')'
  let t := cs.takeWhile p
  if t = [] then none else some (t, cs.dropWhile p)

/-- A complete double-quoted chunk `"[^"]*"` (quotes included, as the
regex group captures them). -/
def matchQuoted (cs : List Char) : Option (List Char × List Char) :=
  match cs with
  | '"' :: tl =>
      let inner := tl.takeWhile (fun c => c ≠ '"')
      match tl.dropWhile (fun c => c ≠ '"') with
      | '"' :: rest => some ('"' :: (inner ++ ['"']), rest)
      | _ => none
  | _ => none

/-- The value alternative `("[^"]*"|[^\s)]+)`: a complete quoted chunk
first, else a bare run. -/
def matchValueTok (cs : List Char) : Option (List Char × List Char) :=
  match matchQuoted cs with
  | some r => some r
  | none => takeBare1 cs

/-- `.replace(/^"|"$/g, '')`: strip one leading and one trailing
double quote. -/
def stripQuotesEnds (v : List Char) : List Char :=
  let v1 := if v.head? = some '"' then v.tail else v
  if v1.getLast? = some '"' then v1.dropLast else v1

/-- The comparison-operator alternative `(>=|<=|!=|>|<|=)` in the
regex's order. -/
def opPrefixQ (cs : List Char) : Option (String × List Char) :=
  match cs with
  | '>' :: '=' :: r => some (">=", r)
  | '<' :: '=' :: r => some ("<=", r)
  | '!' :: '=' :: r => some ("!=", r)
  | '>' :: r => some (">", r)
  | '<' :: r => some ("<", r)
  | '=' :: r => some ("=", r)
  | _ => none

/-- `QueryParser._mapOperator`. -/
def mapOperatorQ (op : String) : String :=
  if op = "=" then "equals"
  else if op = "!=" then "notEquals"
  else if op = ">" then "greaterThan"
  else if op = ">=" then "greaterOrEqual"
  else if op = "<" then "lessThan"
  else if op = "<=" then "lessOrEqual"
  else "equals"

/-- The `FIELD_OP` pattern `(\w+):(>=|<=|!=|>|<|=)("[^"]*"|[^\s)]+)`. -/
def tryFieldOp (cs : List Char) : Option (QTok × List Char) := do
  let (w, r1) ← takeWord1 cs
  match r1 with
  | ':' :: r2 =>
      match opPrefixQ r2 with
      | some (op, r3) =>
          match matchValueTok r3 with
          | some (v, rest) =>
              some (QTok.FIELD_OP (String.mk w) (mapOperatorQ op)
                (String.mk (stripQuotesEnds v)), rest)
          | none => none
      | none => none
  | _ => none

/-- The `FIELD` pattern `(\w+):("[^"]*"|[^\s)]+)` with the `^`/`$`
operator prefixes applied to the unquoted value. -/
def tryField (cs : List Char) : Option (QTok × List Char) := do
  let (w, r1) ← takeWord1 cs
  match r1 with
  | ':' :: r2 =>
      match matchValueTok r2 with
      | some (v, rest) =>
          let v0 := stripQuotesEnds v
          let opv1 : String × List Char :=
            if v0.head? = some '^' then ("startsWith", v0.tail)
            else ("contains", v0)
          let opv2 : String × List Char :=
            if opv1.2.getLast? = some '$' then ("endsWith", opv1.2.dropLast)
            else opv1
          some (QTok.FIELD (String.mk w) opv2.1 (String.mk opv2.2), rest)
      | none => none
  | _ => none

/-- The `STRING` pattern `"([^"]*)"` (the token value is the inner
capture). -/
def tryString (cs : List Char) : Option (QTok × List Char) :=
  match matchQuoted cs with
  | some (v, rest) => some (QTok.STRING (String.mk (stripQuotesEnds v)), rest)
  | none => none

/-- A `\bKW\b` keyword pattern (case-insensitive): the previous character
must not be a word character, the keyword must match, and the following
character (if any) must not be a word character. -/
def tryKeyword (kw : List Char) (tok : QTok) (prevWord : Bool)
    (cs : List Char) : Option (QTok × List Char) :=
  if prevWord then none
  else if jsToLower (cs.take kw.length) = jsToLower kw ∧
      kw.length ≤ cs.length then
    match (cs.drop kw.length).head? with
    | some c => if jsWordChar c then none else some (tok, cs.drop kw.length)
    | none => some (tok, cs.drop kw.length)
  else none

/-- Word-character status of the character immediately before the
remaining input (for the `\b` of the keyword patterns). -/
def lastCharWord (cs rest : List Char) : Bool :=
  match (cs.take (cs.length - rest.length)).getLast? with
  | some c => jsWordChar c
  | none => false

/-- The tokenizer loop of `QueryParser.tokenize`: skip whitespace, try
the patterns in priority order at the current position, and skip a
character no pattern matches. -/
def tokenizeQGo : Nat → Bool → List Char → List QTok
  | 0, _, _ => []
  | _ + 1, _, [] => []
  | fuel + 1, prevWord, c :: rest =>
      if jsWhitespace c then tokenizeQGo fuel (jsWordChar c) rest
      else
        let attempt :=
          ((((((((tryFieldOp (c :: rest)).orElse
            (fun _ => tryField (c :: rest))).orElse
            (fun _ => tryString (c :: rest))).orElse
            (fun _ => tryKeyword ("AND".toList) QTok.AND prevWord (c :: rest))).orElse
            (fun _ => tryKeyword ("OR".toList) QTok.OR prevWord (c :: rest))).orElse
            (fun _ => tryKeyword ("NOT".toList) QTok.NOT prevWord (c :: rest))).orElse
            (fun _ => if c = '(' then some (QTok.LPAREN, rest) else none)).orElse
            (fun _ => if c = ')' then some (QTok.RPAREN, rest) else none)).orElse
            (fun _ => match takeBare1 (c :: rest) with
              | some (w, r) => some (QTok.WORD (String.mk w), r)
              | none => none)
        match attempt with
        | some (t, r) => t :: tokenizeQGo fuel (lastCharWord (c :: rest) r) r
        | none => tokenizeQGo fuel (jsWordChar c) rest

/-- `QueryParser.tokenize`. -/
def tokenizeQ (cs : List Char) : List QTok :=
  tokenizeQGo (cs.length + 1) false cs

/-- A flat filter rule produced by the flat-dialect `QueryParser.parse`
(the random UUID id is omitted). -/
structure FlatRule where
  field : String
  operator : String
  value : String
  logic : Option String
  enabled : Bool
deriving Repr, DecidableEq

/-- `QueryParser.parse`: fold the tokens into a rule list — a field token
emits a rule carrying the *pending* connective set by a preceding
`AND`/`OR` token — then null out the last rule's logic. -/
def parseQRules (toks : List QTok) : List FlatRule :=
  let folded := toks.foldl (fun (acc : List FlatRule × Option String) t =>
    match t with
    | QTok.FIELD f op v => (acc.1 ++ [⟨f, op, v, acc.2, true⟩], none)
    | QTok.FIELD_OP f op v => (acc.1 ++ [⟨f, op, v, acc.2, true⟩], none)
    | QTok.AND => (acc.1, some "AND")
    | QTok.OR => (acc.1, some "OR")
    | _ => acc) ([], none)
  match folded.1.getLast? with
  | some last => folded.1.dropLast ++ [{ last with logic := none }]
  | none => folded.1

/-- `parseAdvancedQuery` (`shared.js`): `none` for a blank query,
otherwise the parsed rules plus the space-joined `WORD` tokens as the
quick-search string.  The body's `try/catch` can never fire: the
tokenizer and parser are total (unknown characters are skipped,
unbalanced parentheses and unterminated quotes are consumed without
error), so no query string produces a parse error. -/
def parseAdvancedQuery (queryText : String) : Option (List FlatRule × String) :=
  if queryText = "" then none
  else if jsTrim queryText.toList = [] then none
  else
    let toks := tokenizeQ queryText.toList
    let rules := parseQRules toks
    let words := toks.filterMap (fun t =>
      match t with
      | QTok.WORD v => some v
      | _ => none)
    some (rules, String.intercalate " " words)

/-- The worker's `PARSE_ADVANCED_QUERY` handler: the reply's success flag
and payload.  The `catch` branch (success = false) is unreachable because
`parseAdvancedQuery` is total. -/
def handleParseAdvancedQuery (queryText : String) :
    Bool × Option (List FlatRule × String) :=
  (true, parseAdvancedQuery queryText)


/-- **C6 counterexample** The claim says malformed queries (unbalanced
parentheses, unterminated quotes) surface a distinguishable
`QueryParseError` and no partial filter is applied.  The flat-dialect
compiler in `shared.js` is total: `"(level:ERROR"` (unbalanced
parenthesis) and `"msg:\"unterminated"` (unterminated quote) both parse
*successfully* into non-empty rule lists — a filter is produced and
applied, and no error of any kind is surfaced. -/
theorem query_parse_failure_counterexample :
    parseAdvancedQuery "(level:ERROR" =
      some ([⟨"level", "contains", "ERROR", none, true⟩], "") ∧
    parseAdvancedQuery "msg:\"unterminated" =
      some ([⟨"msg", "contains", "unterminated", none, true⟩], "") := by
  constructor <;> rfl

/-- **C6 (amended)** Query parse failure handling: the flat-dialect
textual query compiler never fails — the worker's `PARSE_ADVANCED_QUERY`
handler always replies with success (no unhandled fault can abort the
filtering pipeline, since the tokenizer skips unrecognised characters and
consumes unbalanced parentheses and unterminated quotes silently), and
`parseAdvancedQuery` returns `none` exactly for blank input; a malformed
query therefore yields a (possibly partial) successful filter instead of
a distinguishable `QueryParseError`. -/
theorem query_parse_failure_handling :
    (∀ queryText : String, (handleParseAdvancedQuery queryText).1 = true) ∧
    (∀ queryText : String,
      parseAdvancedQuery queryText = none ↔
        (queryText = "" ∨ jsTrim queryText.toList = [])) := by
  constructor
  · intro queryText
    rfl
  · intro queryText
    unfold parseAdvancedQuery
    by_cases h1 : queryText = ""
    · rw [if_pos h1]
      simp [h1]
    · rw [if_neg h1]
      by_cases h2 : jsTrim queryText.toList = []
      · rw [if_pos h2]
        simp only [String.toList] at h2
        simp [h2]
      · rw [if_neg h2]
        simp only [String.toList] at h2
        simp [h1, h2]


/-! ## Textual Query Compiler, AST dialect (spec §4.5)

Modelled from the spec: the AST-producing `QueryParser` exercised by
`src/tests/test_query_parser.js` (RULE/LOGIC/NOT nodes, wildcards,
`IN(...)`, `has:`/`missing:`, regex literals, implicit AND, parenthesised
grouping, bare words as full-text terms against `raw`) is not among the
provided sources; these definitions follow the grammar surface of spec
§4.5 and are checked against the literal examples of spec §8. -/

namespace SpecQuery

inductive QueryValue where
  | s (v : String)
  | list (vs : List String)
deriving Repr, DecidableEq

/-- Query AST node (spec §3): tagged union of `RULE`, `LOGIC`, `NOT`. -/
inductive AST where
  | RULE (field operator : String) (value : QueryValue)
  | LOGIC (operator : String) (left right : AST)
  | NOT (operand : AST)
deriving Repr, DecidableEq

inductive Tok where
  | lparen
  | rparen
  | andTok
  | orTok
  | notTok
  | rule (field operator : String) (value : QueryValue)
deriving Repr, DecidableEq

/-- Modelled from the spec: classify a plain `field:value` term — a
leading `^` switches the default `contains` to `startsWith`, a trailing
`$` to `endsWith`, and a `*` wildcard rewrites the value into an anchored
regular expression (`value1*` → `^value1.*$`). -/
def classifyValue (field : String) (v : List Char) : Tok :=
  if v.head? = some '^' then
    Tok.rule field "startsWith" (QueryValue.s (String.mk v.tail))
  else if v.getLast? = some '$' then
    Tok.rule field "endsWith" (QueryValue.s (String.mk v.dropLast))
  else if '*' ∈ v then
    Tok.rule field "matches" (QueryValue.s (String.mk
      ('^' :: (v.flatMap (fun c => if c = '*' then ['.', '*'] else [c])) ++ ['$'])))
  else Tok.rule field "contains" (QueryValue.s (String.mk v))

/-- Modelled from the spec: turn a field name and raw value into a term
token — `has:f` → `notEmpty` on `f`, `missing:f` → `empty` on `f`, a
`/regex/` body → `matches`, otherwise `classifyValue`. -/
def fieldTerm (field : String) (v : List Char) : Tok :=
  if field = "has" then Tok.rule (String.mk v) "notEmpty" (QueryValue.s "")
  else if field = "missing" then Tok.rule (String.mk v) "empty" (QueryValue.s "")
  else if v.head? = some '/' ∧ v.getLast? = some '/' ∧ 2 ≤ v.length then
    Tok.rule field "matches" (QueryValue.s (String.mk v.tail.dropLast))
  else classifyValue field v

/-- Word-boundary check for the `AND`/`OR`/`NOT` keywords. -/
def kwBoundary (cs : List Char) : Bool :=
  match cs.head? with
  | none => true
  | some c => jsWhitespace c || c = '(' || c = ')'

/-- Modelled from the spec: the tokenizer.  Field-operator patterns are
prioritised over plain words; quoted strings (including ones holding
spaces or regex bodies) are atomic values; `IN(...)` lists run to their
closing parenthesis; bare words and quoted phrases become full-text terms
against the reserved `raw` field; unterminated quotes or regex literals
and `IN(` without `)` are parse errors naming the offending fragment. -/
def tokenizeAst : Nat → List Char → Except String (List Tok)
  | 0, _ => Except.error "query too long"
  | _ + 1, [] => Except.ok []
  | fuel + 1, c :: rest =>
      if jsWhitespace c then tokenizeAst fuel rest
      else if c = '(' then
        (tokenizeAst fuel rest).map (fun ts => Tok.lparen :: ts)
      else if c = ')' then
        (tokenizeAst fuel rest).map (fun ts => Tok.rparen :: ts)
      else if c = '"' then
        let inner := rest.takeWhile (fun d => d ≠ '"')
        match rest.dropWhile (fun d => d ≠ '"') with
        | '"' :: r2 =>
            (tokenizeAst fuel r2).map (fun ts =>
              Tok.rule "raw" "contains" (QueryValue.s (String.mk inner)) :: ts)
        | _ => Except.error ("unterminated quote: \"" ++ String.mk inner)
      else
        let kw3 := jsToLower ((c :: rest).take 3)
        let kw2 := jsToLower ((c :: rest).take 2)
        if kw3 = "and".toList ∧ kwBoundary ((c :: rest).drop 3) then
          (tokenizeAst fuel ((c :: rest).drop 3)).map (fun ts => Tok.andTok :: ts)
        else if kw2 = "or".toList ∧ kwBoundary ((c :: rest).drop 2) then
          (tokenizeAst fuel ((c :: rest).drop 2)).map (fun ts => Tok.orTok :: ts)
        else if kw3 = "not".toList ∧ kwBoundary ((c :: rest).drop 3) then
          (tokenizeAst fuel ((c :: rest).drop 3)).map (fun ts => Tok.notTok :: ts)
        else
          let name := (c :: rest).takeWhile (fun d =>
            !(jsWhitespace d) && d ≠ ':' && d ≠ '(' && d ≠ ')')
          match (c :: rest).dropWhile (fun d =>
            !(jsWhitespace d) && d ≠ ':' && d ≠ '(' && d ≠ ')') with
          | ':' :: r2 =>
              if "IN(".toList.isPrefixOf r2 then
                let inside := (r2.drop 3).takeWhile (fun d => d ≠ ')')
                match (r2.drop 3).dropWhile (fun d => d ≠ ')') with
                | ')' :: r3 =>
                    (tokenizeAst fuel r3).map (fun ts =>
                      Tok.rule (String.mk name) "in" (QueryValue.list
                        ((splitComma inside).map
                          (fun i => String.mk (jsTrim i)))) :: ts)
                | _ => Except.error ("malformed IN list: " ++ String.mk inside)
              else
                match r2 with
                | '"' :: r3 =>
                    let inner := r3.takeWhile (fun d => d ≠ '"')
                    match r3.dropWhile (fun d => d ≠ '"') with
                    | '"' :: r4 =>
                        (tokenizeAst fuel r4).map (fun ts =>
                          fieldTerm (String.mk name) inner :: ts)
                    | _ =>
                        Except.error ("unterminated quote: \"" ++ String.mk inner)
                | '/' :: r3 =>
                    let body := r3.takeWhile (fun d => d ≠ '/')
                    match r3.dropWhile (fun d => d ≠ '/') with
                    | '/' :: r4 =>
                        (tokenizeAst fuel r4).map (fun ts =>
                          Tok.rule (String.mk name) "matches"
                            (QueryValue.s (String.mk body)) :: ts)
                    | _ =>
                        Except.error ("unterminated regex: /" ++ String.mk body)
                | _ =>
                    let v := r2.takeWhile (fun d =>
                      !(jsWhitespace d) && d ≠ '(' && d ≠ ')')
                    (tokenizeAst fuel (r2.dropWhile (fun d =>
                      !(jsWhitespace d) && d ≠ '(' && d ≠ ')'))).map
                      (fun ts => fieldTerm (String.mk name) v :: ts)
          | _ =>
              if name = [] then Except.error ("unexpected character: " ++
                String.mk [c])
              else
                (tokenizeAst fuel ((c :: rest).drop name.length)).map
                  (fun ts => Tok.rule "raw" "contains"
                    (QueryValue.s (String.mk name)) :: ts)

mutual

/-- Modelled from the spec: `OR` level of the grammar (lowest
precedence). -/
def parseOrE : Nat → List Tok → Except String (AST × List Tok)
  | 0, _ => Except.error "query too deeply nested"
  | fuel + 1, toks => do
      let (left, r1) ← parseAndE fuel toks
      parseOrLoop fuel left r1

def parseOrLoop : Nat → AST → List Tok → Except String (AST × List Tok)
  | 0, _, _ => Except.error "query too deeply nested"
  | fuel + 1, left, toks =>
      match toks with
      | Tok.orTok :: r => do
          let (right, r2) ← parseAndE fuel r
          parseOrLoop fuel (AST.LOGIC "OR" left right) r2
      | _ => Except.ok (left, toks)

/-- Modelled from the spec: `AND` level — explicit `AND` and implicit
adjacency both produce left-associative `LOGIC{AND}` nodes. -/
def parseAndE : Nat → List Tok → Except String (AST × List Tok)
  | 0, _ => Except.error "query too deeply nested"
  | fuel + 1, toks => do
      let (left, r1) ← parseUnaryE fuel toks
      parseAndLoop fuel left r1

def parseAndLoop : Nat → AST → List Tok → Except String (AST × List Tok)
  | 0, _, _ => Except.error "query too deeply nested"
  | fuel + 1, left, toks =>
      match toks with
      | Tok.andTok :: r => do
          let (right, r2) ← parseUnaryE fuel r
          parseAndLoop fuel (AST.LOGIC "AND" left right) r2
      | Tok.notTok :: _ => do
          let (right, r2) ← parseUnaryE fuel toks
          parseAndLoop fuel (AST.LOGIC "AND" left right) r2
      | Tok.lparen :: _ => do
          let (right, r2) ← parseUnaryE fuel toks
          parseAndLoop fuel (AST.LOGIC "AND" left right) r2
      | Tok.rule _ _ _ :: _ => do
          let (right, r2) ← parseUnaryE fuel toks
          parseAndLoop fuel (AST.LOGIC "AND" left right) r2
      | _ => Except.ok (left, toks)

/-- Modelled from the spec: `NOT` prefix, parenthesised grouping, and
single terms. -/
def parseUnaryE : Nat → List Tok → Except String (AST × List Tok)
  | 0, _ => Except.error "query too deeply nested"
  | fuel + 1, toks =>
      match toks with
      | Tok.notTok :: r => do
          let (a, r2) ← parseUnaryE fuel r
          Except.ok (AST.NOT a, r2)
      | Tok.lparen :: r => do
          let (a, r2) ← parseOrE fuel r
          match r2 with
          | Tok.rparen :: r3 => Except.ok (a, r3)
          | _ => Except.error "unbalanced parentheses: missing )"
      | Tok.rule f op v :: r => Except.ok (AST.RULE f op v, r)
      | _ => Except.error "unexpected token in query"

end

/-- Modelled from the spec: compile a query string into an AST (or a
parse error with the offending fragment). -/
def parseQuery (q : String) : Except String AST := do
  let toks ← tokenizeAst (q.length + 1) q.toList
  let (a, rest) ← parseOrE (4 * (toks.length + 1)) toks
  match rest with
  | [] => Except.ok a
  | Tok.rparen :: _ => Except.error "unbalanced parentheses: extra )"
  | _ => Except.error "unexpected trailing tokens"

end SpecQuery


/-- **C5** Textual query compiler literal examples: `level:ERROR` is a
single RULE (field `level`, operator `contains`, value `ERROR`, no
enclosing LOGIC); `level:ERROR app:main` is `LOGIC{AND}` of the two
rules; `user:admin*` is `matches` with value `^admin.*$`; `has:level` is
`notEmpty` on `level`; `level:IN(ERROR, WARN, INFO)` is `in` with value
`["ERROR","WARN","INFO"]`. -/
theorem query_compiler_examples :
    SpecQuery.parseQuery "level:ERROR" =
      Except.ok (SpecQuery.AST.RULE "level" "contains"
        (SpecQuery.QueryValue.s "ERROR")) ∧
    SpecQuery.parseQuery "level:ERROR app:main" =
      Except.ok (SpecQuery.AST.LOGIC "AND"
        (SpecQuery.AST.RULE "level" "contains" (SpecQuery.QueryValue.s "ERROR"))
        (SpecQuery.AST.RULE "app" "contains" (SpecQuery.QueryValue.s "main"))) ∧
    SpecQuery.parseQuery "user:admin*" =
      Except.ok (SpecQuery.AST.RULE "user" "matches"
        (SpecQuery.QueryValue.s "^admin.*$")) ∧
    SpecQuery.parseQuery "has:level" =
      Except.ok (SpecQuery.AST.RULE "level" "notEmpty"
        (SpecQuery.QueryValue.s "")) ∧
    SpecQuery.parseQuery "level:IN(ERROR, WARN, INFO)" =
      Except.ok (SpecQuery.AST.RULE "level" "in"
        (SpecQuery.QueryValue.list ["ERROR", "WARN", "INFO"])) := by
  refine ⟨rfl, rfl, rfl, rfl, rfl⟩


end LogSieve
